import Mathlib

/-!
Verification of the x402-sdk payment construction / verification engine.

The definitions below are shallow embeddings of the TypeScript sources:
`src/token-utils.ts` (unit conversion, instruction verification),
`src/payment-builder.ts` (builder, validation, verifier, header codec),
`src/server.ts` (middleware challenge body), `src/index.ts` (payment routing).

Modelling conventions:
* Solana `PublicKey` values are opaque to this code; they are modelled as
  natural numbers, with distinct constants for the system program and the
  token program ids.  The external base58 rendering (`toBase58`) is
  injective, so content equality of rendered strings is equality of the
  modelled keys and the rendering step is dropped.
* JavaScript numbers are modelled as exact decimal fractions
  `num / 10 ^ exp` (`DecNum`), with `none : Option DecNum` playing the role
  of `NaN`.  The decimal fractions are closed under every numeric operation
  the embedded code performs (parsing decimal literals, scaling by powers
  of ten, flooring, rounding, sign tests).  `toTokenUnits`, whose
  multiply-then-floor is sensitive to rounding, additionally models the
  IEEE-754 binary64 pipeline exactly (`F64`): the parsed decimal is
  rounded to the nearest double, the scaling multiplication rounds its
  exact product, and the floor is exact.  `DecNum.toQ` gives the rational
  value of a decimal fraction.
* Node `Buffer`s are lists of byte values (naturals below 256).
* Code that can throw is modelled in `Except String`; a `try/catch`
  becomes a `match` on the `Except` value.
* The two external collaborators that verification calls into -
  `new PublicKey(string)` parsing and `getAssociatedTokenAddress` -
  are passed in as explicit function arguments, so the theorems hold
  for arbitrary behaviour of those collaborators.
-/

set_option maxRecDepth 40000
set_option maxHeartbeats 1000000

/-- Decidable equality for `Except` results. -/
instance {ε α : Type} [DecidableEq ε] [DecidableEq α] : DecidableEq (Except ε α) :=
  fun a b =>
    match a, b with
    | .ok x, .ok y =>
      if h : x = y then isTrue (by rw [h]) else isFalse (fun h2 => h (Except.ok.inj h2))
    | .ok _, .error _ => isFalse (fun h2 => Except.noConfusion h2)
    | .error _, .ok _ => isFalse (fun h2 => Except.noConfusion h2)
    | .error e, .error f =>
      if h : e = f then isTrue (by rw [h]) else isFalse (fun h2 => h (Except.error.inj h2))

/-- A Solana public key, modelled as an opaque natural number. -/
abbrev Pubkey := Nat

/-- An exact decimal fraction `num / 10 ^ exp`, the model of a (non-`NaN`)
JavaScript number in this development. -/
structure DecNum where
  num : ℤ
  exp : ℕ
deriving DecidableEq

/-- The rational value of a decimal fraction. -/
def DecNum.toQ (x : DecNum) : ℚ :=
  (x.num : ℚ) / (10 : ℚ) ^ x.exp

/-- `Math.floor(x * Math.pow(10, d))` on a decimal fraction, computed
exactly: shift the decimal point and floor-divide the remainder away
(`Int` division in Lean rounds toward negative infinity for positive
divisors, matching `Math.floor`). -/
def decFloorMul10 (x : DecNum) (d : ℕ) : ℤ :=
  if x.exp ≤ d then x.num * 10 ^ (d - x.exp)
  else x.num / (10 : ℤ) ^ (x.exp - d)

/-- Multiplication of a decimal fraction by `10 ^ m` (the only
multiplications the embedded code performs are by `1` and `10 ^ 6`). -/
def decMulPow10 (x : DecNum) (m : ℕ) : DecNum :=
  { num := x.num * 10 ^ m, exp := x.exp }

/-- JS `Math.round` on a decimal fraction: round half toward positive
infinity, `⌊x + 1/2⌋`, computed exactly on the fraction. -/
def jsMathRound (x : DecNum) : ℤ :=
  (2 * x.num + 10 ^ x.exp) / (2 * 10 ^ x.exp)

/-- The `'SOL' | 'USDC' | 'SPL'` token-type tag from `src/types.ts`. -/
inductive TokenType
  | SOL
  | USDC
  | SPL
deriving DecidableEq

/-- The string name of a token type (used in error messages). -/
def TokenType.name : TokenType → String
  | .SOL => "SOL"
  | .USDC => "USDC"
  | .SPL => "SPL"

/-- A `PublicKey | string` field (recipient, mintAddress).  String values
still have to be parsed by the external `new PublicKey(...)`. -/
inductive AddrVal
  | pk (p : Pubkey)
  | str (s : String)
deriving DecidableEq

/-- A `number | string` amount field.  A JS number is an exact decimal
fraction, with `none` standing for `NaN`. -/
inductive AmountVal
  | num (q : Option DecNum)
  | str (s : String)
deriving DecidableEq

/-- Digits of a decimal literal folded to a natural number. -/
def natOfDigits (ds : List Char) : Nat :=
  ds.foldl (fun a c => a * 10 + (c.toNat - 48)) 0

/-- Model of JS `parseFloat` on the plain decimal grammar
`[ws][+|-]digits[.digits]` (longest numeric prefix; `none` for `NaN`).
Exponents and `Infinity` are outside the model. -/
def jsParseFloat (s : String) : Option DecNum :=
  let cs := s.toList.dropWhile (fun c => c = ' ' ∨ c = '\t' ∨ c = '\n' ∨ c = '\r')
  let signed : Bool × List Char :=
    match cs with
    | '-' :: t => (true, t)
    | '+' :: t => (false, t)
    | _ => (false, cs)
  let ds := signed.2.takeWhile Char.isDigit
  let rest := signed.2.dropWhile Char.isDigit
  let fs :=
    match rest with
    | '.' :: t => t.takeWhile Char.isDigit
    | _ => []
  if ds = [] ∧ fs = [] then none
  else
    let mag : ℤ := (natOfDigits ds * 10 ^ fs.length + natOfDigits fs : ℕ)
    some { num := if signed.1 then -mag else mag, exp := fs.length }

/-- The numeric value of an amount field:
`typeof amount === 'string' ? parseFloat(amount) : amount`. -/
def amountNumber : AmountVal → Option DecNum
  | .num q => q
  | .str s => jsParseFloat s

/-- Bit length of a natural number (number of binary digits), computed
with explicit fuel; correct whenever the fuel is at least the bit
length (the rounding code always calls it with fuel 2200 on arguments
below `2 ^ 2100`). -/
def bitLenF : Nat → Nat → Nat
  | 0, _ => 0
  | f + 1, n => if n = 0 then 0 else bitLenF f (n / 2) + 1

/-- An IEEE-754 binary64 value: finite values carry an exact dyadic
representation `m * 2 ^ e` (not necessarily normalised). -/
inductive F64 where
  | nan
  | inf (neg : Bool)
  | fin (m : ℤ) (e : ℤ)
deriving DecidableEq

/-- Negation of a double. -/
def F64.neg : F64 → F64
  | .nan => .nan
  | .inf s => .inf (!s)
  | .fin m e => .fin (-m) e

/-- Rounding when the scaled mantissa `Q` is below `2 ^ 53`: the value is
below the second normal binade, where the granularity is uniformly
`2 ^ (-1074)`; rounds the division remainder `R / d` to nearest, ties to
even. -/
def roundSmall (Q R d : Nat) : F64 :=
  .fin (if d < 2 * R ∨ (d = 2 * R ∧ Q % 2 = 1) then (Q : ℤ) + 1 else (Q : ℤ)) (-1074)

/-- The 53-bit mantissa of `Q` (of bit length `s + 53`) rounded to
nearest, ties to even; a nonzero division remainder `R` makes the
sticky fraction strictly positive. -/
def roundedq (Q R s : Nat) : Nat :=
  if 2 ^ (s - 1) < Q % 2 ^ s ∨ (2 ^ (s - 1) = Q % 2 ^ s ∧ (0 < R ∨ Q / 2 ^ s % 2 = 1))
  then Q / 2 ^ s + 1 else Q / 2 ^ s

/-- Rounding when the scaled mantissa `Q` has bit length `s + 53 > 53`:
keep 53 bits, with the overflow checks of the exponent range (a carry
out of rounding moves the value up one binade). -/
def roundBig (Q R s : Nat) : F64 :=
  if roundedq Q R s = 2 ^ 53 then
    if 2045 ≤ s then .inf false else .fin ((2 : ℤ) ^ 52) ((s : ℤ) + 1 - 1074)
  else
    if 2046 ≤ s then .inf false else .fin ((roundedq Q R s : ℕ) : ℤ) ((s : ℤ) - 1074)

/-- Round a nonnegative value to a double: `Q` is the value in units of
`2 ^ (-1074)` (rounded down), `R` the remainder of that scaling division
by `d`. -/
def roundCore (Q R d : Nat) : F64 :=
  if bitLenF 2200 Q ≤ 53 then roundSmall Q R d
  else roundBig Q R (bitLenF 2200 Q - 53)

/-- Nearest double to `n / d` for natural `n` and positive `d` (round to
nearest, ties to even, overflow to infinity). -/
def roundPosRat (n d : Nat) : F64 :=
  if d * 2 ^ 1025 ≤ n then .inf false
  else roundCore (n * 2 ^ 1074 / d) (n * 2 ^ 1074 % d) d

/-- Nearest double to `n / d` for integer `n` and positive `d`. -/
def roundRat (n : ℤ) (d : Nat) : F64 :=
  if n < 0 then (roundPosRat n.natAbs d).neg else roundPosRat n.natAbs d

/-- Nearest double to the dyadic `m * 2 ^ e`. -/
def roundDyadic (m : ℤ) (e : ℤ) : F64 :=
  if 0 ≤ e then roundRat (m * 2 ^ e.toNat) 1 else roundRat m (2 ^ (-e).toNat)

/-- IEEE-754 binary64 multiplication: the exact product, rounded
(infinities and the `0 * inf = NaN` rule as in the standard). -/
def f64Mul : F64 → F64 → F64
  | .nan, _ => .nan
  | _, .nan => .nan
  | .inf s1, .inf s2 => .inf (xor s1 s2)
  | .inf s1, .fin m _ => if m = 0 then .nan else .inf (xor s1 (decide (m < 0)))
  | .fin m _, .inf s2 => if m = 0 then .nan else .inf (xor (decide (m < 0)) s2)
  | .fin m1 e1, .fin m2 e2 => roundDyadic (m1 * m2) (e1 + e2)

/-- The double nearest to a decimal fraction: what the JS runtime holds
for a number literal, and what `parseFloat` returns for its digits. -/
def f64OfDec (x : DecNum) : F64 := roundRat x.num (10 ^ x.exp)

/-- `Math.pow(10, d)`: the double nearest to `10 ^ d` (exact whenever
`d ≤ 22`, which covers every exponent the embedded code uses). -/
def f64Pow10 (d : Nat) : F64 := roundRat ((10 : ℤ) ^ d) 1

/-- `Math.floor` of a finite double followed by `BigInt`: exact flooring
of the dyadic (`Int` division rounds toward negative infinity for
positive divisors, matching `Math.floor`). -/
def f64floor (m : ℤ) (e : ℤ) : ℤ :=
  if 0 ≤ e then m * 2 ^ e.toNat else m / 2 ^ (-e).toNat

/-- `BigInt(Math.floor(x * Math.pow(10, decimals)))` on a parsed (non-`NaN`)
number `x`: the two roundings of the double pipeline followed by exact
flooring; `BigInt` throws on a `NaN` or infinite argument. -/
def toTokenUnitsF (x : DecNum) (decimals : ℕ) : Except String ℤ :=
  match f64Mul (f64OfDec x) (f64Pow10 decimals) with
  | .fin m e => .ok (f64floor m e)
  | .nan => .error "Cannot convert NaN to a BigInt"
  | .inf _ => .error "Cannot convert Infinity to a BigInt"

/-- `toTokenUnits` from `src/token-utils.ts`:
`BigInt(Math.floor(amountNumber * Math.pow(10, decimals)))`, with the
multiplication carried out in IEEE-754 binary64 as the JS engine does;
`BigInt` applied to `NaN` or an infinity throws a `RangeError`. -/
def toTokenUnits (amount : AmountVal) (decimals : Nat) : Except String ℤ :=
  match amountNumber amount with
  | none => .error "Cannot convert NaN to a BigInt"
  | some x => toTokenUnitsF x decimals

/-- The system program id `11111111111111111111111111111111` (opaque constant). -/
def SYSTEM_PROGRAM_ID : Pubkey := 101

/-- The SPL token program id `TokenkegQfeZyiNwAJbNbGKPFXCWuBvf9Ss623VQ5DA` (opaque constant). -/
def TOKEN_PROGRAM_ID : Pubkey := 102

/-- A decoded transaction instruction: program id, the pubkeys of its
account metas (only the `pubkey` component is ever read by the verifiers),
and its data bytes. -/
structure Instruction where
  programId : Pubkey
  keys : List Pubkey
  data : List Nat
deriving DecidableEq

/-- A transaction as the verifier sees it: its ordered instruction list. -/
structure SolTransaction where
  instructions : List Instruction
deriving DecidableEq

/-- Byte `i` of a buffer (reads past the end yield 0; the embedded code
only reads in bounds). -/
def byteAt (data : List Nat) (i : Nat) : Nat :=
  (data.get? i).getD 0

/-- `Buffer.readBigUInt64LE(off)`: the 8-byte little-endian value at `off`. -/
def readUInt64LE (data : List Nat) (off : Nat) : Nat :=
  byteAt data off
    + 256 * byteAt data (off + 1)
    + 256 ^ 2 * byteAt data (off + 2)
    + 256 ^ 3 * byteAt data (off + 3)
    + 256 ^ 4 * byteAt data (off + 4)
    + 256 ^ 5 * byteAt data (off + 5)
    + 256 ^ 6 * byteAt data (off + 6)
    + 256 ^ 7 * byteAt data (off + 7)

/-- `Buffer.readUInt32LE(off)`: the 4-byte little-endian value at `off`. -/
def readUInt32LE (data : List Nat) (off : Nat) : Nat :=
  byteAt data off
    + 256 * byteAt data (off + 1)
    + 256 ^ 2 * byteAt data (off + 2)
    + 256 ^ 3 * byteAt data (off + 3)

/-- `verifySOLTransferInstruction` from `src/token-utils.ts`: system program,
data exactly 12 bytes with `data[0] === 2`, amount (u64 LE at offset 4) at
least the expected amount, and the second account equal to the expected
recipient.  Nothing in the body can throw, so the `try/catch` is dropped. -/
def verifySOLTransferInstruction (ins : Instruction) (expectedRecipient : Pubkey)
    (expectedAmount : ℤ) : Bool :=
  if ins.programId ≠ SYSTEM_PROGRAM_ID then false
  else if ins.data.length = 12 ∧ ins.data.get? 0 = some 2 then
    let transferAmount : ℤ := readUInt64LE ins.data 4
    if transferAmount < expectedAmount then false
    else if 2 ≤ ins.keys.length then
      decide (ins.keys.get? 1 = some expectedRecipient)
        && decide (expectedAmount ≤ transferAmount)
    else false
  else false

/-- `verifySPLTransferInstruction` from `src/token-utils.ts`.  The external
`getAssociatedTokenAddress` is passed in as `ata`; the code wraps its call
in a `try/catch` that returns `false`, modelled by the `.error` branch. -/
def verifySPLTransferInstruction (ata : Pubkey → Pubkey → Except String Pubkey)
    (ins : Instruction) (expectedRecipient : Pubkey) (expectedAmount : ℤ)
    (expectedMint : Option Pubkey) : Bool :=
  if ins.programId ≠ TOKEN_PROGRAM_ID then false
  else if 9 ≤ ins.data.length ∧ ins.data.get? 0 = some 3 then
    let transferAmount : ℤ := readUInt64LE ins.data 1
    if transferAmount < expectedAmount then false
    else if 2 ≤ ins.keys.length then
      match expectedMint with
      | some mint =>
        match ata mint expectedRecipient with
        | .ok expectedTokenAccount =>
          if ins.keys.get? 1 ≠ some expectedTokenAccount then false
          else decide (expectedAmount ≤ transferAmount)
        | .error _ => false
      | none => false
    else false
  else false

/-- A built `PaymentConfig` (all required fields present, per `src/types.ts`). -/
structure PaymentConfig where
  tokenType : TokenType
  amount : AmountVal
  recipient : AddrVal
  mintAddress : Option AddrVal := none
  decimals : Option Nat := none
  createAccountIfNeeded : Option Bool := none
deriving DecidableEq

/-- The mutable draft accumulated by `PaymentBuilder` setters
(`Partial<PaymentConfig>`). -/
structure PaymentDraft where
  tokenType : Option TokenType := none
  amount : Option AmountVal := none
  recipient : Option AddrVal := none
  mintAddress : Option AddrVal := none
  decimals : Option Nat := none
  createAccountIfNeeded : Option Bool := none
deriving DecidableEq

/-- JS falsiness of an optional `PublicKey | string` field: `undefined` and
the empty string are falsy, every `PublicKey` object is truthy. -/
def jsFalsyAddr : Option AddrVal → Bool
  | none => true
  | some (.str s) => s = ""
  | some (.pk _) => false

/-- `PaymentBuilder.build` from `src/payment-builder.ts`: four sequential
presence checks, each throwing on its own; the first failing check wins.
The final fallback branch is unreachable (a falsy check has already ruled
out an absent recipient) and repeats the recipient error. -/
def buildConfig (d : PaymentDraft) : Except String PaymentConfig :=
  match d.tokenType with
  | none => .error "Token type is required"
  | some tt =>
    match d.amount with
    | none => .error "Amount is required"
    | some am =>
      if jsFalsyAddr d.recipient then .error "Recipient is required"
      else if tt ≠ TokenType.SOL ∧ jsFalsyAddr d.mintAddress then
        .error "Mint address is required for SPL token payments"
      else
        match d.recipient with
        | some rec =>
          .ok { tokenType := tt, amount := am, recipient := rec,
                mintAddress := d.mintAddress, decimals := d.decimals,
                createAccountIfNeeded := d.createAccountIfNeeded }
        | none => .error "Recipient is required"

/-- `PaymentUtils.validateConfig` from `src/payment-builder.ts`, collecting
every violated rule.  `parsePk` is the external `new PublicKey(string)`
constructor.  The input is a draft because the checks re-test presence of
each field (the JS object is duck-typed).  The amount positivity test
`amount <= 0` is the sign test on the decimal fraction numerator. -/
def validateConfig (parsePk : String → Except String Pubkey)
    (c : PaymentDraft) : Bool × List String :=
  let e1 : List String := if c.tokenType.isNone then ["Token type is required"] else []
  let e2 : List String :=
    match c.amount with
    | none => ["Amount is required"]
    | some a =>
      match amountNumber a with
      | none => ["Amount must be a positive number"]
      | some x => if x.num ≤ 0 then ["Amount must be a positive number"] else []
  let e3 : List String :=
    if jsFalsyAddr c.recipient then ["Recipient is required"]
    else
      match c.recipient with
      | some (.str s) =>
        match parsePk s with
        | .ok _ => []
        | .error _ => ["Invalid recipient address"]
      | _ => []
  let e4 : List String :=
    if c.tokenType ≠ some TokenType.SOL ∧ jsFalsyAddr c.mintAddress then
      ["Mint address is required for SPL token payments"]
    else []
  let e5 : List String :=
    if jsFalsyAddr c.mintAddress then []
    else
      match c.mintAddress with
      | some (.str s) =>
        match parsePk s with
        | .ok _ => []
        | .error _ => ["Invalid mint address"]
      | _ => []
  let errors := e1 ++ e2 ++ e3 ++ e4 ++ e5
  (errors = [], errors)

/-- Resolve a `PublicKey | string` field the way the verifier does:
`typeof x === 'string' ? new PublicKey(x) : x`. -/
def resolveAddr (parsePk : String → Except String Pubkey) : AddrVal → Except String Pubkey
  | .str s => parsePk s
  | .pk p => .ok p

/-- `expectedConfig.decimals || (tokenType === 'SOL' ? 9 : 6)`; the JS `||`
treats 0 as falsy. -/
def effectiveDecimals (c : PaymentConfig) : Nat :=
  let dflt := if c.tokenType = TokenType.SOL then 9 else 6
  match c.decimals with
  | some d => if d = 0 then dflt else d
  | none => dflt

/-- The `details` object of a successful verification.  The TS code renders
`recipient` and `mintAddress` to base58 strings; the rendering is injective
and is dropped here, keeping the underlying values. -/
structure VerificationDetails where
  amount : ℤ
  recipient : Pubkey
  tokenType : TokenType
  mintAddress : Option AddrVal
deriving DecidableEq

/-- `PaymentVerificationResult` from `src/types.ts`. -/
structure VerificationResult where
  isValid : Bool
  error : Option String := none
  details : Option VerificationDetails := none
deriving DecidableEq

/-- `details.mintAddress`: `config.mintAddress ? ... : undefined`
(the empty string is falsy). -/
def detailsMint (c : PaymentConfig) : Option AddrVal :=
  if jsFalsyAddr c.mintAddress then none else c.mintAddress

/-- The instruction loop of `PaymentVerifier.verifyPaymentInstructions`:
the first matching instruction returns the success result; for non-SOL
configs the expected mint is re-resolved on each iteration and a parse
failure escapes as an exception (later caught at the function boundary). -/
def verifyLoop (parsePk : String → Except String Pubkey)
    (ata : Pubkey → Pubkey → Except String Pubkey) (c : PaymentConfig)
    (recipient : Pubkey) (expectedAmount : ℤ) :
    List Instruction → Except String VerificationResult
  | [] =>
    .ok { isValid := false,
          error := some ("No valid " ++ c.tokenType.name ++ " transfer instruction found") }
  | ins :: rest => do
    let isValid ←
      if c.tokenType = TokenType.SOL then
        pure (verifySOLTransferInstruction ins recipient expectedAmount)
      else do
        let mint ←
          match c.mintAddress with
          | some a => do
            let m ← resolveAddr parsePk a
            pure (some m)
          | none => pure (none : Option Pubkey)
        pure (verifySPLTransferInstruction ata ins recipient expectedAmount mint)
    if isValid then
      .ok { isValid := true,
            details := some { amount := expectedAmount, recipient := recipient,
                              tokenType := c.tokenType, mintAddress := detailsMint c } }
    else
      verifyLoop parsePk ata c recipient expectedAmount rest

/-- The body of `PaymentVerifier.verifyPaymentInstructions` before its
`try/catch`: resolve the expected recipient, compute the expected base-unit
amount, then scan the instructions. -/
def verifyInner (parsePk : String → Except String Pubkey)
    (ata : Pubkey → Pubkey → Except String Pubkey)
    (tx : SolTransaction) (c : PaymentConfig) : Except String VerificationResult := do
  let recipient ← resolveAddr parsePk c.recipient
  let expectedAmount ← toTokenUnits c.amount (effectiveDecimals c)
  verifyLoop parsePk ata c recipient expectedAmount tx.instructions

/-- `PaymentVerifier.verifyPaymentInstructions` from `src/payment-builder.ts`:
the catch-all boundary turning any internal exception into a structured
`{isValid:false, error}` result. -/
def verifyPaymentInstructions (parsePk : String → Except String Pubkey)
    (ata : Pubkey → Pubkey → Except String Pubkey)
    (tx : SolTransaction) (c : PaymentConfig) : VerificationResult :=
  match verifyInner parsePk ata tx c with
  | .ok r => r
  | .error e => { isValid := false, error := some ("Verification failed: " ++ e) }

/-- `PaymentMethod` from `src/types.ts`. -/
inductive PaymentMethod
  | onchain
  | facilitator
  | auto
deriving DecidableEq

/-- The SDK-level configuration fields that `X402SDK.pay` reads. -/
structure SDKConfig where
  network : String
  preferOnChain : Option Bool := none
  defaultPaymentMethod : Option PaymentMethod := none
  defaultFacilitator : Option String := none
deriving DecidableEq

/-- Whether the SDK holds a `FacilitatorClient`: the constructor creates one
iff `cfg.defaultFacilitator` is truthy (the empty string is falsy). -/
def facilitatorConfigured (cfg : SDKConfig) : Bool :=
  match cfg.defaultFacilitator with
  | some url => url ≠ ""
  | none => false

/-- `opts?.method || this.cfg.defaultPaymentMethod || 'auto'` (the method
strings are never empty, so `||` is just the first present value). -/
def resolveMethod (optsMethod : Option PaymentMethod) (cfg : SDKConfig) : PaymentMethod :=
  match optsMethod with
  | some m => m
  | none =>
    match cfg.defaultPaymentMethod with
    | some m => m
    | none => .auto

/-- The externally observable outcome class of one `X402SDK.pay` call,
up to (but not including) the first network interaction. -/
inductive PayAction
  | invalidConfig (errors : List String)
  | payerKeypairRequired
  | onChainSubmit
  | facilitatorSubmit
  | noFacilitatorConfigured
deriving DecidableEq

/-- The routing logic of `X402SDK.pay` from `src/index.ts`: validate the
configuration, resolve the requested method, compute `useOnChain`, then
either submit on-chain or require a configured facilitator.  Both error
outcomes (`invalidConfig`, `noFacilitatorConfigured`) are thrown before any
network call; `onChainSubmit` / `facilitatorSubmit` mark the first network
interaction of each path. -/
def payDecision (parsePk : String → Except String Pubkey) (cfg : SDKConfig)
    (config : PaymentDraft) (optsMethod : Option PaymentMethod)
    (hasPayerKeypair : Bool) : PayAction :=
  let validation := validateConfig parsePk config
  if validation.1 = false then .invalidConfig validation.2
  else
    let method := resolveMethod optsMethod cfg
    let useOnChain : Bool :=
      match method with
      | .onchain => true
      | .facilitator => false
      | .auto => cfg.preferOnChain = some true ∧ hasPayerKeypair = true
    if useOnChain then
      if hasPayerKeypair = false then .payerKeypairRequired
      else .onChainSubmit
    else
      if facilitatorConfigured cfg = false then .noFacilitatorConfigured
      else .facilitatorSubmit

/-- Substring test modelling JS `String.prototype.includes`. -/
def strContainsSub (s pat : String) : Bool :=
  s.toList.tails.any (fun t => pat.toList.isPrefixOf t)

/-- The devnet USDC mint constant (opaque). -/
def USDC_DEVNET_MINT : Pubkey := 201

/-- The mainnet USDC mint constant (opaque). -/
def USDC_MAINNET_MINT : Pubkey := 202

/-- `getUSDCMint` from `src/token-utils.ts`:
`network.includes('mainnet') ? USDC_MAINNET_MINT : USDC_DEVNET_MINT`. -/
def getUSDCMint (network : String) : Pubkey :=
  if strContainsSub network "mainnet" then USDC_MAINNET_MINT else USDC_DEVNET_MINT

/-- The options taken by `createPaymentMiddleware` in `src/server.ts`. -/
structure MiddlewareOpts where
  price : DecNum
  tokenType : TokenType
  recipient : String
  mintAddress : Option String := none
  network : Option String := none
deriving DecidableEq

/-- `opts.network || 'solana-devnet'` (empty string falsy). -/
def middlewareNetwork (o : MiddlewareOpts) : String :=
  match o.network with
  | some n => if n = "" then "solana-devnet" else n
  | none => "solana-devnet"

/-- The `payment` object of the HTTP 402 challenge body. -/
structure ChallengePayment where
  recipient : String
  amount : ℤ
  cluster : String
  tokenType : TokenType
  mintAddress : Option String
deriving DecidableEq

/-- The HTTP 402 challenge response issued by the middleware. -/
structure ChallengeResponse where
  status : Nat
  error : String
  payment : ChallengePayment
deriving DecidableEq

/-- The no-`X-Payment` branch of the middleware in `src/server.ts`:
`res.status(402).json({error:'Payment Required', payment:{recipient,
amount: Math.round(opts.price * (opts.tokenType === 'SOL' ? 1 : Math.pow(10, 6))),
cluster, tokenType, mintAddress}})`.  Note the `SOL` multiplier is `1`
(that is, `10 ^ 0`), not `10 ^ 9`. -/
def challengeResponse (o : MiddlewareOpts) : ChallengeResponse :=
  { status := 402
    error := "Payment Required"
    payment :=
      { recipient := o.recipient
        amount := jsMathRound
          (decMulPow10 o.price (if o.tokenType = TokenType.SOL then 0 else 6))
        cluster := if strContainsSub (middlewareNetwork o) "mainnet" then "mainnet" else "devnet"
        tokenType := o.tokenType
        mintAddress := o.mintAddress } }

/-- The expected `PaymentConfig` the same middleware reconstructs for the
verification branch (request with an `X-Payment` header): price as amount,
decimals 9 for SOL and 6 otherwise, USDC mint filled in when absent. -/
def middlewareExpectedConfig (o : MiddlewareOpts) : PaymentConfig :=
  { tokenType := o.tokenType
    amount := .num (some o.price)
    recipient := .str o.recipient
    mintAddress :=
      match o.mintAddress with
      | some s =>
        if s = "" then
          if o.tokenType = TokenType.USDC then some (.pk (getUSDCMint (middlewareNetwork o)))
          else none
        else some (.str s)
      | none =>
        if o.tokenType = TokenType.USDC then some (.pk (getUSDCMint (middlewareNetwork o)))
        else none
    decimals := some (if o.tokenType = TokenType.SOL then 9 else 6)
    createAccountIfNeeded := some true }

/-- The Native match predicate exactly as the specification words it
(section 4.2 with 4.5): decode succeeds for the documented layout - a
4-byte little-endian instruction-kind tag equal to 2 followed by an 8-byte
little-endian amount, total length 12 - the amount is at least the expected
amount, and the destination (second) account is the expected recipient.
Written from the specification for comparison with
`verifySOLTransferInstruction`, which is written from the source. -/
def specNativeMatch (ins : Instruction) (expectedRecipient : Pubkey)
    (expectedAmount : ℤ) : Prop :=
  ins.programId = SYSTEM_PROGRAM_ID ∧
  ins.data.length = 12 ∧
  readUInt32LE ins.data 0 = 2 ∧
  expectedAmount ≤ (readUInt64LE ins.data 4 : ℤ) ∧
  ins.keys.get? 1 = some expectedRecipient

instance (ins : Instruction) (r : Pubkey) (a : ℤ) :
    Decidable (specNativeMatch ins r a) := by
  unfold specNativeMatch; infer_instance

/-- The first presence rule violated by a draft, in the check order of
`PaymentBuilder.build` (the amended reading of the specification sentence
on `build()`). -/
def firstViolation (d : PaymentDraft) : Option String :=
  if d.tokenType = none then some "Token type is required"
  else if d.amount = none then some "Amount is required"
  else if jsFalsyAddr d.recipient then some "Recipient is required"
  else if d.tokenType ≠ some TokenType.SOL ∧ jsFalsyAddr d.mintAddress then
    some "Mint address is required for SPL token payments"
  else none

/-! Concrete fixtures used by witnesses and counterexamples. -/

/-- A concrete recipient key. -/
def pkRecipient : Pubkey := 55

/-- A second, different recipient key. -/
def pkRecipient2 : Pubkey := 56

/-- A concrete funder key. -/
def pkFunder : Pubkey := 77

/-- A concrete mint key. -/
def mintKey : Pubkey := 300

/-- The 8 little-endian bytes of an amount below `2 ^ 32`. -/
def amountBytesLE (n : Nat) : List Nat :=
  [n % 256, n / 256 % 256, n / 65536 % 256, n / 16777216 % 256, 0, 0, 0, 0]

/-- A well-formed native transfer instruction (tag bytes `[2,0,0,0]`). -/
def nativeTransferIns (amt : Nat) (dest : Pubkey) : Instruction :=
  { programId := SYSTEM_PROGRAM_ID, keys := [pkFunder, dest],
    data := [2, 0, 0, 0] ++ amountBytesLE amt }

/-- An expected Native specification: 0.001 SOL (1_000_000 base units at
the default 9 decimals) to `pkRecipient`. -/
def solExpectedConfig : PaymentConfig :=
  { tokenType := .SOL, amount := .num (some { num := 1, exp := 3 }),
    recipient := .pk pkRecipient }

/-- An external key parser that rejects every string (the behaviour of
`new PublicKey` on malformed input). -/
def pkParseNever : String → Except String Pubkey :=
  fun _ => .error "Invalid public key input"

/-- A concrete associated-token-address derivation (injective on the pairs
used here). -/
def ataDerive : Pubkey → Pubkey → Except String Pubkey :=
  fun mint owner => .ok (mint * 1000003 + owner)

/-- A system-program instruction whose first data byte is 2 but whose full
4-byte little-endian tag is 258 (`[2,1,0,0]`), carrying 1_000_000 base
units to `pkRecipient`. -/
def c1TagBytesIns : Instruction :=
  { programId := SYSTEM_PROGRAM_ID, keys := [pkFunder, pkRecipient],
    data := [2, 1, 0, 0] ++ amountBytesLE 1000000 }

/-- A basic (unchecked, tag 3) token-program transfer of 1_000_000 base
units to the derived token account of `pkRecipient` for `mintKey`. -/
def splUncheckedIns : Instruction :=
  { programId := TOKEN_PROGRAM_ID, keys := [9, mintKey * 1000003 + pkRecipient, 7],
    data := [3] ++ amountBytesLE 1000000 }

/-- The checked-variant (tag 12) token-program transfer of the same
1_000_000 base units: layout `[12, amount u64 LE, decimals]`, accounts
`[source, mint, destination, owner]` with the destination equal to the
derived token account of `pkRecipient` for `mintKey`. -/
def splCheckedIns : Instruction :=
  { programId := TOKEN_PROGRAM_ID,
    keys := [9, mintKey, mintKey * 1000003 + pkRecipient, 7],
    data := [12] ++ amountBytesLE 1000000 ++ [6] }

/-- A Fungible expected specification with no mint address. -/
def cUSDCNoMint : PaymentConfig :=
  { tokenType := .USDC, amount := .num (some { num := 1, exp := 0 }),
    recipient := .pk pkRecipient }

/-- A SOL expected specification whose recipient string no parser accepts. -/
def badRecipientConfig : PaymentConfig :=
  { tokenType := .SOL, amount := .num (some { num := 1, exp := 0 }),
    recipient := .str "not-a-key" }

/-- The middleware options of the specification scenario:
price 0.001, SOL, recipient `"Rxyz"`. -/
def c2Opts : MiddlewareOpts :=
  { price := { num := 1, exp := 3 }, tokenType := .SOL, recipient := "Rxyz" }

/-- An SDK configuration preferring on-chain, with no facilitator. -/
def sdkAutoOn : SDKConfig :=
  { network := "solana-devnet", preferOnChain := some true }

/-- A complete, valid SOL payment draft. -/
def validDraftSOL : PaymentDraft :=
  { tokenType := some .SOL, amount := some (.num (some { num := 1, exp := 0 })),
    recipient := some (.pk pkRecipient) }

/-- The empty draft: it violates every presence rule. -/
def draftEmpty : PaymentDraft := {}

/-- A draft violating only the token-type rule. -/
def draftOnlyTokenMissing : PaymentDraft :=
  { amount := some (.num (some { num := 1, exp := 0 })),
    recipient := some (.pk pkRecipient), mintAddress := some (.pk mintKey) }

/-- A transaction overpaying the expected 1_000_000 base units. -/
def overpayTx : SolTransaction :=
  ⟨[nativeTransferIns 2000000 pkRecipient]⟩

/-- JSON values as JS produces them: numbers restricted to integers (the
only numbers in the proof envelope are integers; JS float printing is out
of the model), object fields in insertion order. -/
inductive Json where
  | null
  | bool (b : Bool)
  | num (n : ℤ)
  | str (s : String)
  | arr (elems : List Json)
  | obj (fields : List (String × Json))

/-- The decimal digit character of `d < 10`. -/
def decDigitChar (d : Nat) : Char := Char.ofNat (48 + d)

/-- Lowercase hexadecimal digit character of `d < 16`. -/
def hexDigitChar (d : Nat) : Char :=
  if d < 10 then Char.ofNat (48 + d) else Char.ofNat (87 + d)

/-- The decimal digit characters of a natural number, most significant
first (`JSON.stringify` integer printing). -/
def natChars (n : Nat) : List Char :=
  if n < 10 then [decDigitChar n]
  else natChars (n / 10) ++ [decDigitChar (n % 10)]
termination_by n
decreasing_by exact Nat.div_lt_self (by omega) (by omega)

/-- Printing of an integer by `JSON.stringify` (JS has no negative zero in
`Int`). -/
def intChars (n : ℤ) : List Char :=
  if n < 0 then '-' :: natChars n.natAbs else natChars n.toNat

/-- The escape `JSON.stringify` applies to one string character: quote and
backslash get two-character escapes, the five named control characters get
theirs, other control characters get `\u00XX`, everything else is copied
verbatim. -/
def escapeChar (c : Char) : List Char :=
  if c = '"' then ['\\', '"']
  else if c = '\\' then ['\\', '\\']
  else if c = '\x08' then ['\\', 'b']
  else if c = '\t' then ['\\', 't']
  else if c = '\n' then ['\\', 'n']
  else if c = '\x0c' then ['\\', 'f']
  else if c = '\x0d' then ['\\', 'r']
  else if c.toNat < 32 then
    ['\\', 'u', '0', '0', hexDigitChar (c.toNat / 16), hexDigitChar (c.toNat % 16)]
  else [c]

/-- The escaped body of a string literal, including the closing quote. -/
def escBody : List Char → List Char
  | [] => ['"']
  | c :: cs => escapeChar c ++ escBody cs

/-- A full string literal: opening quote, escaped body, closing quote. -/
def quoteChars (cs : List Char) : List Char := '"' :: escBody cs

mutual
/-- Model of `JSON.stringify` (no space argument): the character sequence
of a JSON value. -/
def stringifyVal : Json → List Char
  | .null => "null".toList
  | .bool true => "true".toList
  | .bool false => "false".toList
  | .num n => intChars n
  | .str s => quoteChars s.toList
  | .arr es => '[' :: stringifyArr es
  | .obj fs => '\x7b' :: stringifyObj fs

/-- Array elements, comma separated, with the closing bracket. -/
def stringifyArr : List Json → List Char
  | [] => [']']
  | [x] => stringifyVal x ++ [']']
  | x :: y :: rest => stringifyVal x ++ ',' :: stringifyArr (y :: rest)

/-- Object members `"key":value`, comma separated, with the closing
brace. -/
def stringifyObj : List (String × Json) → List Char
  | [] => ['\x7d']
  | [(k, v)] => quoteChars k.toList ++ ':' :: stringifyVal v ++ ['\x7d']
  | (k, v) :: f :: rest =>
    quoteChars k.toList ++ ':' :: stringifyVal v ++ ',' :: stringifyObj (f :: rest)
end

/-- JSON whitespace accepted by `JSON.parse`. -/
def jsonWs (c : Char) : Bool := c = ' ' ∨ c = '\t' ∨ c = '\n' ∨ c = '\x0d'

/-- Skip JSON whitespace. -/
def skipWs (cs : List Char) : List Char := cs.dropWhile jsonWs

/-- The value of a hexadecimal digit character. -/
def hexVal (c : Char) : Option Nat :=
  if 48 ≤ c.toNat ∧ c.toNat ≤ 57 then some (c.toNat - 48)
  else if 97 ≤ c.toNat ∧ c.toNat ≤ 102 then some (c.toNat - 87)
  else if 65 ≤ c.toNat ∧ c.toNat ≤ 70 then some (c.toNat - 55)
  else none

/-- The character of a short escape (`\" \\ \/ \b \f \n \r \t`). -/
def escCharOf (e : Char) : Option Char :=
  if e = '"' then some '"'
  else if e = '\\' then some '\\'
  else if e = '/' then some '/'
  else if e = 'b' then some '\x08'
  else if e = 'f' then some '\x0c'
  else if e = 'n' then some '\n'
  else if e = 'r' then some '\x0d'
  else if e = 't' then some '\t'
  else none

/-- Prepend a decoded string character. -/
def optCons (c : Char) : Option (List Char × List Char) → Option (List Char × List Char)
  | some (s, r) => some (c :: s, r)
  | none => none

/-- Combine four hexadecimal digit characters. -/
def hex4 (h1 h2 h3 h4 : Char) : Option Nat :=
  match hexVal h1, hexVal h2, hexVal h3, hexVal h4 with
  | some v1, some v2, some v3, some v4 => some (((v1 * 16 + v2) * 16 + v3) * 16 + v4)
  | _, _, _, _ => none

mutual
/-- Parse the body of a string literal up to and including the closing
quote (`JSON.parse` string grammar; `\uXXXX` restricted to non-surrogate
scalars, which covers everything `stringifyVal` emits). -/
def parseStrBody : List Char → Option (List Char × List Char)
  | [] => none
  | c :: rest =>
    if c = '"' then some ([], rest)
    else if c = '\\' then parseStrEsc rest
    else if c.toNat < 32 then none
    else optCons c (parseStrBody rest)

/-- Parse the remainder of an escape sequence (after the backslash). -/
def parseStrEsc : List Char → Option (List Char × List Char)
  | [] => none
  | e :: rest2 =>
    if e = 'u' then parseStrHex rest2
    else
      match escCharOf e with
      | some ec => optCons ec (parseStrBody rest2)
      | none => none

/-- Parse the four hex digits of a `\uXXXX` escape. -/
def parseStrHex : List Char → Option (List Char × List Char)
  | h1 :: h2 :: h3 :: h4 :: rest3 =>
    match hex4 h1 h2 h3 h4 with
    | some v =>
      if 55296 ≤ v ∧ v < 57344 then none
      else optCons (Char.ofNat v) (parseStrBody rest3)
    | none => none
  | _ => none
end

/-- Parse a nonempty digit run (maximal munch). -/
def parseNatNum (cs : List Char) : Option (Nat × List Char) :=
  let ds := cs.takeWhile Char.isDigit
  if ds = [] then none else some (natOfDigits ds, cs.dropWhile Char.isDigit)

/-- Expect a literal character sequence. -/
def expectLit : List Char → List Char → Option (List Char)
  | [], cs => some cs
  | l :: ls, c :: cs => if c = l then expectLit ls cs else none
  | _ :: _, [] => none

mutual
/-- Model of the `JSON.parse` value grammar (fuel bounds the recursion depth; every
recursive call decrements it, and `jsonParse` supplies more fuel than any
input can consume). -/
def parseVal : Nat → List Char → Option (Json × List Char)
  | 0, _ => none
  | fuel + 1, cs =>
    match skipWs cs with
    | [] => none
    | c :: rest =>
      if c = 'n' then
        match expectLit ['u', 'l', 'l'] rest with
        | some r => some (.null, r)
        | none => none
      else if c = 't' then
        match expectLit ['r', 'u', 'e'] rest with
        | some r => some (.bool true, r)
        | none => none
      else if c = 'f' then
        match expectLit ['a', 'l', 's', 'e'] rest with
        | some r => some (.bool false, r)
        | none => none
      else if c = '"' then
        match parseStrBody rest with
        | some (s, r) => some (.str (String.mk s), r)
        | none => none
      else if c = '[' then parseArr fuel rest
      else if c = '\x7b' then parseObj fuel rest
      else if c = '-' then
        match parseNatNum rest with
        | some (n, r) => some (.num (-(n : ℤ)), r)
        | none => none
      else if c.isDigit then
        match parseNatNum (c :: rest) with
        | some (n, r) => some (.num (n : ℤ), r)
        | none => none
      else none

/-- Array tail parser: called after the opening bracket. -/
def parseArr : Nat → List Char → Option (Json × List Char)
  | 0, _ => none
  | fuel + 1, cs =>
    match skipWs cs with
    | [] => none
    | c :: rest =>
      if c = ']' then some (.arr [], rest)
      else
        match parseElems fuel (c :: rest) with
        | some (es, r) => some (.arr es, r)
        | none => none

/-- Nonempty element list parser, consuming the closing bracket. -/
def parseElems : Nat → List Char → Option (List Json × List Char)
  | 0, _ => none
  | fuel + 1, cs =>
    match parseVal fuel cs with
    | some (v, r) => parseElemsSep fuel v (skipWs r)
    | none => none

/-- After one array element: a comma continues the list, a closing
bracket ends it. -/
def parseElemsSep : Nat → Json → List Char → Option (List Json × List Char)
  | 0, _, _ => none
  | _ + 1, _, [] => none
  | fuel + 1, v, c :: r2 =>
    if c = ',' then
      match parseElems fuel r2 with
      | some (es, r3) => some (v :: es, r3)
      | none => none
    else if c = ']' then some ([v], r2)
    else none

/-- Object tail parser: called after the opening brace. -/
def parseObj : Nat → List Char → Option (Json × List Char)
  | 0, _ => none
  | fuel + 1, cs =>
    match skipWs cs with
    | [] => none
    | c :: rest =>
      if c = '\x7d' then some (.obj [], rest)
      else
        match parseMembers fuel (c :: rest) with
        | some (fs, r) => some (.obj fs, r)
        | none => none

/-- Nonempty member list parser, consuming the closing brace. -/
def parseMembers : Nat → List Char → Option (List (String × Json) × List Char)
  | 0, _ => none
  | fuel + 1, cs =>
    match skipWs cs with
    | [] => none
    | c :: rest =>
      if c = '"' then
        match parseStrBody rest with
        | some (k, r) => parseMemColon fuel (String.mk k) (skipWs r)
        | none => none
      else none

/-- After a member key: a colon introduces the member value. -/
def parseMemColon : Nat → String → List Char → Option (List (String × Json) × List Char)
  | 0, _, _ => none
  | _ + 1, _, [] => none
  | fuel + 1, k, c :: r2 =>
    if c = ':' then
      match parseVal fuel r2 with
      | some (v, r3) => parseMemSep fuel k v (skipWs r3)
      | none => none
    else none

/-- After one member: a comma continues the list, a closing brace ends
it. -/
def parseMemSep : Nat → String → Json → List Char → Option (List (String × Json) × List Char)
  | 0, _, _, _ => none
  | _ + 1, _, _, [] => none
  | fuel + 1, k, v, c :: r4 =>
    if c = ',' then
      match parseMembers fuel r4 with
      | some (fs, r5) => some ((k, v) :: fs, r5)
      | none => none
    else if c = '\x7d' then some ([(k, v)], r4)
    else none
end

/-- Model of `JSON.parse`: parse one value and require only whitespace after it.
The fuel `3 * length + 3` exceeds the recursion depth of any input. -/
def jsonParse (s : String) : Option Json :=
  match parseVal (3 * s.length + 3) s.toList with
  | some (j, rest) => if skipWs rest = [] then some j else none
  | none => none

/-- UTF-8 encoding of one scalar value (Lean `Char` is exactly a Unicode
scalar value, as a well-formed JS string decomposes into). -/
def utf8EncodeChar (c : Char) : List Nat :=
  let n := c.toNat
  if n < 128 then [n]
  else if n < 2048 then [192 + n / 64, 128 + n % 64]
  else if n < 65536 then [224 + n / 4096, 128 + n / 64 % 64, 128 + n % 64]
  else [240 + n / 262144, 128 + n / 4096 % 64, 128 + n / 64 % 64, 128 + n % 64]

/-- UTF-8 encoding of a character sequence (`Buffer.from(string, 'utf-8')`). -/
def utf8Encode : List Char → List Nat
  | [] => []
  | c :: cs => utf8EncodeChar c ++ utf8Encode cs

/-- Prepend a decoded character to a decoded tail. -/
def utf8Cont (c : Char) : Option (List Char) → Option (List Char)
  | some cs => some (c :: cs)
  | none => none

mutual
/-- Strict UTF-8 decoding (`buffer.toString('utf-8')` on valid input;
Node substitutes U+FFFD on invalid input, which never arises in the
round trip). -/
def utf8Decode : List Nat → Option (List Char)
  | [] => some []
  | b :: rest =>
    if b < 128 then utf8Cont (Char.ofNat b) (utf8Decode rest)
    else utf8Dec2 b rest

/-- Decoding continuation after a multi-byte lead byte. -/
def utf8Dec2 (b : Nat) : List Nat → Option (List Char)
  | [] => none
  | b2 :: rest =>
    if b < 192 then none
    else if b < 224 then
      if 128 ≤ b2 ∧ b2 < 192 ∧ 128 ≤ (b - 192) * 64 + (b2 - 128) then
        utf8Cont (Char.ofNat ((b - 192) * 64 + (b2 - 128))) (utf8Decode rest)
      else none
    else utf8Dec3 b b2 rest

/-- Decoding continuation after two bytes of a 3- or 4-byte sequence. -/
def utf8Dec3 (b b2 : Nat) : List Nat → Option (List Char)
  | [] => none
  | b3 :: rest =>
    if b < 240 then
      if (128 ≤ b2 ∧ b2 < 192) ∧ (128 ≤ b3 ∧ b3 < 192) ∧
          ¬((b - 224) * 4096 + (b2 - 128) * 64 + (b3 - 128) < 2048 ∨
            (55296 ≤ (b - 224) * 4096 + (b2 - 128) * 64 + (b3 - 128) ∧
             (b - 224) * 4096 + (b2 - 128) * 64 + (b3 - 128) < 57344)) then
        utf8Cont (Char.ofNat ((b - 224) * 4096 + (b2 - 128) * 64 + (b3 - 128)))
          (utf8Decode rest)
      else none
    else utf8Dec4 b b2 b3 rest

/-- Decoding continuation after three bytes of a 4-byte sequence. -/
def utf8Dec4 (b b2 b3 : Nat) : List Nat → Option (List Char)
  | [] => none
  | b4 :: rest =>
    if b < 248 then
      if (128 ≤ b2 ∧ b2 < 192) ∧ (128 ≤ b3 ∧ b3 < 192) ∧ (128 ≤ b4 ∧ b4 < 192) ∧
          ¬((b - 240) * 262144 + (b2 - 128) * 4096 + (b3 - 128) * 64 + (b4 - 128) < 65536 ∨
            1114112 ≤ (b - 240) * 262144 + (b2 - 128) * 4096 + (b3 - 128) * 64 + (b4 - 128)) then
        utf8Cont
          (Char.ofNat ((b - 240) * 262144 + (b2 - 128) * 4096 + (b3 - 128) * 64 + (b4 - 128)))
          (utf8Decode rest)
      else none
    else none
end

/-- The RFC 4648 base64 alphabet used by Node `Buffer`. -/
def b64Alphabet : List Char :=
  ['A', 'B', 'C', 'D', 'E', 'F', 'G', 'H', 'I', 'J', 'K', 'L', 'M',
   'N', 'O', 'P', 'Q', 'R', 'S', 'T', 'U', 'V', 'W', 'X', 'Y', 'Z',
   'a', 'b', 'c', 'd', 'e', 'f', 'g', 'h', 'i', 'j', 'k', 'l', 'm',
   'n', 'o', 'p', 'q', 'r', 's', 't', 'u', 'v', 'w', 'x', 'y', 'z',
   '0', '1', '2', '3', '4', '5', '6', '7', '8', '9', '+', '/']

/-- The alphabet character of a sextet. -/
def b64Char (n : Nat) : Char := (b64Alphabet.get? n).getD 'A'

/-- The sextet of an alphabet character. -/
def b64Val (c : Char) : Option Nat := b64Alphabet.findIdx? (fun a => a = c)

/-- Base64 encoding with padding (`buffer.toString('base64')`). -/
def b64EncodeChunks : List Nat → List Char
  | [] => []
  | [b1] => [b64Char (b1 / 4), b64Char (b1 % 4 * 16), '=', '=']
  | [b1, b2] => [b64Char (b1 / 4), b64Char (b1 % 4 * 16 + b2 / 16), b64Char (b2 % 16 * 4), '=']
  | b1 :: b2 :: b3 :: rest =>
    b64Char (b1 / 4) :: b64Char (b1 % 4 * 16 + b2 / 16)
      :: b64Char (b2 % 16 * 4 + b3 / 64) :: b64Char (b3 % 64) :: b64EncodeChunks rest

/-- Strict base64 decoding (`Buffer.from(string, 'base64')` on canonical
input; Node is lenient on non-canonical input, which never arises in the
round trip).  A padded terminal chunk is only accepted at the end. -/
def b64DecodeChunks : List Char → Option (List Nat)
  | [] => some []
  | c1 :: c2 :: c3 :: c4 :: rest =>
    match b64Val c1, b64Val c2 with
    | some v1, some v2 =>
      if c3 = '=' then
        if c4 = '=' ∧ rest = [] ∧ v2 % 16 = 0 then some [v1 * 4 + v2 / 16] else none
      else
        match b64Val c3 with
        | some v3 =>
          if c4 = '=' then
            if rest = [] ∧ v3 % 4 = 0 then some [v1 * 4 + v2 / 16, v2 % 16 * 16 + v3 / 4]
            else none
          else
            match b64Val c4 with
            | some v4 =>
              match b64DecodeChunks rest with
              | some bs =>
                some ((v1 * 4 + v2 / 16) :: (v2 % 16 * 16 + v3 / 4) :: (v3 % 4 * 64 + v4) :: bs)
              | none => none
            | none => none
        | none => none
    | _, _ => none
  | _ => none

/-- Model of `PaymentUtils.createX402Header` from `src/payment-builder.ts`:
`Buffer.from(JSON.stringify(data)).toString('base64')`. -/
def createX402Header (j : Json) : String :=
  String.mk (b64EncodeChunks (utf8Encode (stringifyVal j)))

/-- Model of `PaymentUtils.parseX402Header` from `src/payment-builder.ts`:
`JSON.parse(Buffer.from(header, 'base64').toString('utf-8'))`, with every
failure converted to the header-format error. -/
def parseX402Header (s : String) : Except String Json :=
  match b64DecodeChunks s.toList with
  | none => .error "Invalid x402 payment header format"
  | some bytes =>
    match utf8Decode bytes with
    | none => .error "Invalid x402 payment header format"
    | some cs =>
      match jsonParse (String.mk cs) with
      | none => .error "Invalid x402 payment header format"
      | some j => .ok j

mutual
/-- Well-formedness of a JSON value as the image of a JS object: every
object has pairwise distinct keys (a JS object cannot carry duplicate
keys). -/
def jsonWFb : Json → Bool
  | .null => true
  | .bool _ => true
  | .num _ => true
  | .str _ => true
  | .arr es => jsonWFbArr es
  | .obj fs => decide ((fs.map Prod.fst).Nodup) && jsonWFbObj fs

/-- Well-formedness of every array element. -/
def jsonWFbArr : List Json → Bool
  | [] => true
  | x :: rest => jsonWFb x && jsonWFbArr rest

/-- Well-formedness of every object field value. -/
def jsonWFbObj : List (String × Json) → Bool
  | [] => true
  | (_, v) :: rest => jsonWFb v && jsonWFbObj rest
end

/-- A concrete x402 payment-proof payload, used as the round-trip
witness input. -/
def proofPayload : Json :=
  .obj [("x402Version", .num 1), ("scheme", .str "exact"),
        ("network", .str "solana-devnet"),
        ("payload", .obj [("serializedTransaction", .str "AQIDBA==")])]

/-- Absence of a leading digit (boundary condition for maximal-munch
number parsing). -/
def noDigitHead : List Char → Prop
  | [] => True
  | c :: _ => c.isDigit = false

mutual
/-- Fuel needed by `parseVal` on the output of `stringifyVal`. -/
def fuelV : Json → Nat
  | .null => 1
  | .bool _ => 1
  | .num _ => 1
  | .str _ => 1
  | .arr es => 1 + fuelA es
  | .obj fs => 1 + fuelO fs

/-- Fuel needed by `parseArr`. -/
def fuelA : List Json → Nat
  | [] => 1
  | x :: t => 1 + fuelE (x :: t)

/-- Fuel needed by `parseElems`. -/
def fuelE : List Json → Nat
  | [] => 0
  | x :: t => 1 + fuelV x + fuelS t

/-- Fuel needed by `parseElemsSep` on the tail of an element list. -/
def fuelS : List Json → Nat
  | [] => 1
  | y :: t2 => 1 + fuelE (y :: t2)

/-- Fuel needed by `parseObj`. -/
def fuelO : List (String × Json) → Nat
  | [] => 1
  | f :: t => 1 + fuelM (f :: t)

/-- Fuel needed by `parseMembers`. -/
def fuelM : List (String × Json) → Nat
  | [] => 0
  | (_, v) :: t => 2 + fuelV v + fuelP t

/-- Fuel needed by `parseMemSep` on the tail of a member list. -/
def fuelP : List (String × Json) → Nat
  | [] => 1
  | g :: t2 => 1 + fuelM (g :: t2)
end

/-! Helper lemmas. -/

/-- Reducing a bind of a successful `Except` computation. -/
theorem except_ok_bind {ε α β : Type} (a : α) (f : α → Except ε β) :
    (Except.ok a >>= f : Except ε β) = f a := rfl

/-- Reducing a bind of a failed `Except` computation. -/
theorem except_error_bind {ε α β : Type} (e : ε) (f : α → Except ε β) :
    (Except.error e >>= f : Except ε β) = .error e := rfl

/-- `pure` on `Except` is `.ok`. -/
theorem except_pure_eq {ε α : Type} (a : α) : (pure a : Except ε α) = .ok a := rfl

/-- `decFloorMul10` computes the floor of the rational value scaled by
`10 ^ d`, exactly as `Math.floor(x * Math.pow(10, d))` does on exact
arithmetic. -/
theorem decFloorMul10_eq_floor (x : DecNum) (d : ℕ) :
    decFloorMul10 x d = ⌊x.toQ * (10 : ℚ) ^ d⌋ := by
  unfold decFloorMul10 DecNum.toQ
  by_cases h : x.exp ≤ d
  · rw [if_pos h]
    have hsplit : (10 : ℚ) ^ d = 10 ^ x.exp * 10 ^ (d - x.exp) := by
      rw [← pow_add, Nat.add_sub_cancel' h]
    have hval : (x.num : ℚ) / 10 ^ x.exp * 10 ^ d
        = ((x.num * 10 ^ (d - x.exp) : ℤ) : ℚ) := by
      rw [hsplit]
      push_cast
      field_simp
      ring
    rw [hval, Int.floor_intCast]
  · rw [if_neg h]
    have h' : d ≤ x.exp := le_of_not_le h
    have hsplit : (10 : ℚ) ^ x.exp = 10 ^ (x.exp - d) * 10 ^ d := by
      rw [← pow_add, Nat.sub_add_cancel h']
    have hval : (x.num : ℚ) / 10 ^ x.exp * 10 ^ d
        = (x.num : ℚ) / ((10 ^ (x.exp - d) : ℕ) : ℚ) := by
      rw [hsplit]
      push_cast
      field_simp
      ring
    rw [hval, Rat.floor_intCast_div_natCast]
    push_cast
    rfl

/-- `jsMathRound` computes `⌊x + 1/2⌋`, the JS `Math.round`. -/
theorem jsMathRound_eq_floor (x : DecNum) :
    jsMathRound x = ⌊x.toQ + 1 / 2⌋ := by
  unfold jsMathRound DecNum.toQ
  have h2 : ((2 * 10 ^ x.exp : ℕ) : ℚ) ≠ 0 := by positivity
  have hval : (x.num : ℚ) / 10 ^ x.exp + 1 / 2
      = ((2 * x.num + 10 ^ x.exp : ℤ) : ℚ) / ((2 * 10 ^ x.exp : ℕ) : ℚ) := by
    push_cast
    field_simp
    ring
  rw [hval, Rat.floor_intCast_div_natCast]
  push_cast
  rfl

/-- A non-negative numerator gives a non-negative value. -/
theorem DecNum.toQ_nonneg (x : DecNum) (h : 0 ≤ x.num) : 0 ≤ x.toQ := by
  unfold DecNum.toQ
  have : (0 : ℚ) ≤ (x.num : ℚ) := by exact_mod_cast h
  positivity

/-- A negative numerator gives a negative value. -/
theorem DecNum.toQ_neg (x : DecNum) (h : x.num < 0) : x.toQ < 0 := by
  unfold DecNum.toQ
  apply div_neg_of_neg_of_pos
  · exact_mod_cast h
  · positivity

/-- Characterisation of the SOL instruction matcher as implemented:
system program, exactly 12 data bytes with first byte 2, amount at offset 4
at least the expected amount, second account equal to the recipient. -/
theorem verifySOL_iff (ins : Instruction) (r : Pubkey) (amt : ℤ) :
    verifySOLTransferInstruction ins r amt = true ↔
      (ins.programId = SYSTEM_PROGRAM_ID ∧ ins.data.length = 12 ∧
       ins.data.get? 0 = some 2 ∧ amt ≤ (readUInt64LE ins.data 4 : ℤ) ∧
       ins.keys.get? 1 = some r) := by
  unfold verifySOLTransferInstruction
  split_ifs with h1 h2 h3
  · simp only [Bool.false_eq_true, false_iff]
    rintro ⟨hp, -⟩
    exact h1 hp
  · by_cases hlt : (readUInt64LE ins.data 4 : ℤ) < amt
    · simp only [if_pos hlt, Bool.false_eq_true, false_iff]
      rintro ⟨-, -, -, ha, -⟩
      omega
    · simp only [if_neg hlt, Bool.and_eq_true, decide_eq_true_eq]
      constructor
      · rintro ⟨hk, ha⟩
        exact ⟨not_not.mp h1, h2.1, h2.2, ha, hk⟩
      · rintro ⟨-, -, -, ha, hk⟩
        exact ⟨hk, ha⟩
  · simp only [ite_self, Bool.false_eq_true, false_iff]
    rintro ⟨-, -, -, -, hk⟩
    obtain ⟨hlen, -⟩ := List.get?_eq_some.mp hk
    omega
  · simp only [Bool.false_eq_true, false_iff]
    rintro ⟨-, hl, h0, -, -⟩
    exact h2 ⟨hl, h0⟩

/-- Characterisation of the SPL instruction matcher as implemented, when an
expected mint is present: token program, at least 9 data bytes with first
byte 3 (the unchecked transfer tag), amount at offset 1 at least the
expected amount, and second account equal to the derived token account. -/
theorem verifySPL_some_iff (ata : Pubkey → Pubkey → Except String Pubkey)
    (ins : Instruction) (r : Pubkey) (amt : ℤ) (m : Pubkey) :
    verifySPLTransferInstruction ata ins r amt (some m) = true ↔
      (ins.programId = TOKEN_PROGRAM_ID ∧ 9 ≤ ins.data.length ∧
       ins.data.get? 0 = some 3 ∧ amt ≤ (readUInt64LE ins.data 1 : ℤ) ∧
       ∃ t, ata m r = .ok t ∧ ins.keys.get? 1 = some t) := by
  unfold verifySPLTransferInstruction
  split_ifs with h1 h2 h3
  · simp only [Bool.false_eq_true, false_iff]
    rintro ⟨hp, -⟩
    exact h1 hp
  · by_cases hlt : (readUInt64LE ins.data 1 : ℤ) < amt
    · simp only [if_pos hlt, Bool.false_eq_true, false_iff]
      rintro ⟨-, -, -, ha, -⟩
      omega
    · simp only [if_neg hlt]
      cases hata : ata m r with
      | ok t =>
        dsimp only
        by_cases hk : ins.keys.get? 1 = some t
        · rw [if_neg (not_not_intro hk)]
          simp only [decide_eq_true_eq]
          constructor
          · intro ha
            exact ⟨not_not.mp h1, h2.1, h2.2, ha, ⟨t, rfl, hk⟩⟩
          · rintro ⟨-, -, -, ha, -⟩
            exact ha
        · rw [if_pos hk]
          simp only [Bool.false_eq_true, false_iff]
          rintro ⟨-, -, -, -, t2, ht2, hk2⟩
          obtain rfl : t = t2 := by injection ht2
          exact hk hk2
      | error e =>
        dsimp only
        simp only [Bool.false_eq_true, false_iff]
        rintro ⟨-, -, -, -, t2, ht2, -⟩
        simp at ht2
  · simp only [ite_self, Bool.false_eq_true, false_iff]
    rintro ⟨-, -, -, -, t, -, hk⟩
    obtain ⟨hlen, -⟩ := List.get?_eq_some.mp hk
    omega
  · simp only [Bool.false_eq_true, false_iff]
    rintro ⟨-, hl, h0, -, -⟩
    exact h2 ⟨hl, h0⟩

/-- With no expected mint, no instruction ever matches the SPL verifier. -/
theorem verifySPL_mint_none (ata : Pubkey → Pubkey → Except String Pubkey)
    (ins : Instruction) (r : Pubkey) (amt : ℤ) :
    verifySPLTransferInstruction ata ins r amt none = false := by
  unfold verifySPLTransferInstruction
  split_ifs <;> simp [ite_self]

/-- Every successful run of the verification loop is either the success
result - carrying the expected amount, the resolved recipient and the
configured mint - or the no-instruction-found failure result. -/
theorem verifyLoop_ok_cases (p : String → Except String Pubkey)
    (a : Pubkey → Pubkey → Except String Pubkey) (c : PaymentConfig)
    (rec : Pubkey) (amt : ℤ) (l : List Instruction) (r : VerificationResult)
    (h : verifyLoop p a c rec amt l = .ok r) :
    r = { isValid := true,
          details := some { amount := amt, recipient := rec,
                            tokenType := c.tokenType, mintAddress := detailsMint c } } ∨
    r = { isValid := false,
          error := some ("No valid " ++ c.tokenType.name ++ " transfer instruction found") } := by
  induction l with
  | nil =>
    right
    simp only [verifyLoop, Except.ok.injEq] at h
    exact h.symm
  | cons ins rest ih =>
    rw [verifyLoop] at h
    by_cases hsol : c.tokenType = TokenType.SOL
    · rw [if_pos hsol] at h
      simp only [except_pure_eq, except_ok_bind] at h
      by_cases hv : verifySOLTransferInstruction ins rec amt = true
      · rw [if_pos hv] at h
        left
        exact (Except.ok.injEq _ _ ▸ h).symm
      · rw [if_neg hv] at h
        exact ih h
    · rw [if_neg hsol] at h
      cases hm : c.mintAddress with
      | none =>
        rw [hm] at h
        simp only [except_pure_eq, except_ok_bind] at h
        by_cases hv : verifySPLTransferInstruction a ins rec amt none = true
        · rw [if_pos hv] at h
          left
          exact (Except.ok.injEq _ _ ▸ h).symm
        · rw [if_neg hv] at h
          exact ih h
      | some a2 =>
        rw [hm] at h
        dsimp only at h
        cases hres : resolveAddr p a2 with
        | error e =>
          rw [hres] at h
          simp only [except_error_bind] at h
          cases h
        | ok mv =>
          rw [hres] at h
          simp only [except_pure_eq, except_ok_bind] at h
          by_cases hv : verifySPLTransferInstruction a ins rec amt (some mv) = true
          · rw [if_pos hv] at h
            left
            exact (Except.ok.injEq _ _ ▸ h).symm
          · rw [if_neg hv] at h
            exact ih h

/-- For a Fungible configuration with no mint, the loop always ends in the
no-instruction-found failure. -/
theorem verifyLoop_mint_none (p : String → Except String Pubkey)
    (a : Pubkey → Pubkey → Except String Pubkey) (c : PaymentConfig)
    (rec : Pubkey) (amt : ℤ) (l : List Instruction)
    (hsol : c.tokenType ≠ TokenType.SOL) (hm : c.mintAddress = none) :
    verifyLoop p a c rec amt l =
      .ok { isValid := false,
            error := some ("No valid " ++ c.tokenType.name ++ " transfer instruction found") } := by
  induction l with
  | nil => rfl
  | cons ins rest ih =>
    rw [verifyLoop, if_neg hsol, hm]
    dsimp only
    simp only [except_pure_eq, except_ok_bind, verifySPL_mint_none, Bool.false_eq_true,
      if_false]
    exact ih

/-- Inverting a successful run of the verifier body: the recipient
resolved, the expected amount converted, and the loop produced the
result. -/
theorem verifyInner_ok_elim (p : String → Except String Pubkey)
    (a : Pubkey → Pubkey → Except String Pubkey) (tx : SolTransaction)
    (c : PaymentConfig) (r : VerificationResult)
    (h : verifyInner p a tx c = .ok r) :
    ∃ rec amt, resolveAddr p c.recipient = .ok rec ∧
      toTokenUnits c.amount (effectiveDecimals c) = .ok amt ∧
      verifyLoop p a c rec amt tx.instructions = .ok r := by
  unfold verifyInner at h
  cases h1 : resolveAddr p c.recipient with
  | error e =>
    rw [h1] at h
    simp only [except_error_bind] at h
    cases h
  | ok rec =>
    rw [h1] at h
    simp only [except_ok_bind] at h
    cases h2 : toTokenUnits c.amount (effectiveDecimals c) with
    | error e =>
      rw [h2] at h
      simp only [except_error_bind] at h
      cases h
    | ok amt =>
      rw [h2] at h
      simp only [except_ok_bind] at h
      exact ⟨rec, amt, rfl, rfl, h⟩

theorem bitLenF_zero : ∀ f, bitLenF f 0 = 0
  | 0 => rfl
  | _ + 1 => by rw [bitLenF, if_pos rfl]

theorem bitLenF_spec : ∀ f n, 0 < n → n < 2 ^ f →
    2 ^ (bitLenF f n - 1) ≤ n ∧ n < 2 ^ bitLenF f n ∧ 1 ≤ bitLenF f n := by
  intro f
  induction f with
  | zero => intro n h1 h2; omega
  | succ f ih =>
    intro n h1 h2
    rw [bitLenF, if_neg (by omega)]
    by_cases hh : n / 2 = 0
    · have hn1 : n = 1 := by omega
      subst hn1
      rw [hh, bitLenF_zero]
      omega
    · have hhalf : n / 2 < 2 ^ f := by
        rw [pow_succ] at h2
        omega
      obtain ⟨ha, hb, hc⟩ := ih (n / 2) (by omega) hhalf
      refine ⟨?_, ?_, by omega⟩
      · have : 2 ^ (bitLenF f (n / 2) + 1 - 1) = 2 ^ (bitLenF f (n / 2) - 1) * 2 := by
          rw [show bitLenF f (n / 2) + 1 - 1 = bitLenF f (n / 2) - 1 + 1 from by omega,
            pow_succ]
        rw [this]
        omega
      · rw [pow_succ]
        omega

theorem bitLenF_unique : ∀ f n B, 0 < n → n < 2 ^ f → 1 ≤ B →
    2 ^ (B - 1) ≤ n → n < 2 ^ B → bitLenF f n = B := by
  intro f n B h1 h2 hB1 hBl hBu
  obtain ⟨ha, hb, hc⟩ := bitLenF_spec f n h1 h2
  set A := bitLenF f n with hA
  rcases Nat.lt_trichotomy A B with h | h | h
  · have : 2 ^ A ≤ 2 ^ (B - 1) := Nat.pow_le_pow_right (by omega) (by omega)
    omega
  · exact h
  · have : 2 ^ B ≤ 2 ^ (A - 1) := Nat.pow_le_pow_right (by omega) (by omega)
    omega

theorem bitLenF_mul_pow (c k : ℕ) (h1 : 0 < c) (h2 : c * 2 ^ k < 2 ^ 2200) :
    bitLenF 2200 (c * 2 ^ k) = bitLenF 2200 c + k := by
  have hc : c < 2 ^ 2200 := by
    have : (1 : ℕ) ≤ 2 ^ k := Nat.one_le_two_pow
    calc c = c * 1 := by omega
    _ ≤ c * 2 ^ k := Nat.mul_le_mul_left c this
    _ < 2 ^ 2200 := h2
  obtain ⟨ha, hb, hc1⟩ := bitLenF_spec 2200 c h1 hc
  refine bitLenF_unique 2200 (c * 2 ^ k) (bitLenF 2200 c + k)
    (by positivity) h2 (by omega) ?_ ?_
  · rw [show bitLenF 2200 c + k - 1 = bitLenF 2200 c - 1 + k from by omega, pow_add]
    exact Nat.mul_le_mul_right _ ha
  · rw [pow_add]
    exact (Nat.mul_lt_mul_right (by positivity)).mpr hb

theorem roundCore_shape (Q R d : ℕ) :
    (∃ (m : ℕ) (e : ℤ), roundCore Q R d = .fin (m : ℤ) e) ∨ roundCore Q R d = .inf false := by
  unfold roundCore roundSmall roundBig
  split_ifs with h1 h2 h3 h4 h5 h6
  · exact .inl ⟨Q + 1, -1074, by push_cast; rfl⟩
  · exact .inl ⟨Q, -1074, rfl⟩
  · exact .inr rfl
  · exact .inl ⟨2 ^ 52, _, by push_cast; rfl⟩
  · exact .inr rfl
  · exact .inl ⟨_, _, rfl⟩

theorem roundPosRat_shape (n d : ℕ) :
    (∃ (m : ℕ) (e : ℤ), roundPosRat n d = .fin (m : ℤ) e) ∨ roundPosRat n d = .inf false := by
  unfold roundPosRat
  split_ifs with h
  · exact .inr rfl
  · exact roundCore_shape _ _ _

theorem roundRat_nonneg_shape (n : ℤ) (d : ℕ) (h : 0 ≤ n) :
    (∃ (m : ℕ) (e : ℤ), roundRat n d = .fin (m : ℤ) e) ∨ roundRat n d = .inf false := by
  unfold roundRat
  rw [if_neg (by omega)]
  exact roundPosRat_shape _ _

theorem roundPos_zero (d : ℕ) (hd : 0 < d) : roundPosRat 0 d = .fin 0 (-1074) := by
  unfold roundPosRat
  rw [if_neg (Nat.not_le.mpr (by positivity))]
  rw [Nat.zero_mul, Nat.zero_div, Nat.zero_mod]
  unfold roundCore
  rw [bitLenF_zero, if_pos (by omega)]
  unfold roundSmall
  rw [if_neg (by omega)]
  norm_num

theorem roundRat_nonpos_shape (n : ℤ) (d : ℕ) (hd : 0 < d) (h : n ≤ 0) :
    (∃ (m : ℕ) (e : ℤ), roundRat n d = .fin (-(m : ℤ)) e) ∨ roundRat n d = .inf true := by
  unfold roundRat
  by_cases hn : n < 0
  · rw [if_pos hn]
    rcases roundPosRat_shape n.natAbs d with ⟨m, e, hm⟩ | hm
    · exact .inl ⟨m, e, by rw [hm]; rfl⟩
    · exact .inr (by rw [hm]; rfl)
  · have h0 : n = 0 := by omega
    subst h0
    rw [if_neg hn, show (0 : ℤ).natAbs = 0 from rfl, roundPos_zero d hd]
    exact .inl ⟨0, -1074, by norm_num⟩

theorem f64floor_nonneg (m : ℤ) (e : ℤ) (h : 0 ≤ m) : 0 ≤ f64floor m e := by
  unfold f64floor
  split_ifs
  · positivity
  · exact Int.ediv_nonneg h (by positivity)

theorem f64floor_nonpos (m : ℤ) (e : ℤ) (h : m ≤ 0) : f64floor m e ≤ 0 := by
  unfold f64floor
  split_ifs
  · exact mul_nonpos_of_nonpos_of_nonneg h (by positivity)
  · calc m / 2 ^ (-e).toNat ≤ 0 / 2 ^ (-e).toNat := Int.ediv_le_ediv (by positivity) h
      _ = 0 := Int.zero_ediv _

theorem roundPos_exact (v : ℕ) (h1 : 0 < v) (h2 : v < 2 ^ 53) :
    ∃ j : ℕ, j ≤ 52 ∧ roundPosRat v 1 = .fin ((v * 2 ^ j : ℕ) : ℤ) (-(j : ℤ)) := by
  obtain ⟨ha, hb, hc⟩ := bitLenF_spec 2200 v h1
    (lt_of_lt_of_le h2 (Nat.pow_le_pow_right (by omega) (by omega)))
  set L := bitLenF 2200 v with hL
  have hL53 : L ≤ 53 := by
    by_contra hcon
    have : 2 ^ 53 ≤ 2 ^ (L - 1) := Nat.pow_le_pow_right (by omega) (by omega)
    omega
  refine ⟨53 - L, by omega, ?_⟩
  unfold roundPosRat
  rw [if_neg (Nat.not_le.mpr (by
    rw [Nat.one_mul]
    exact lt_of_lt_of_le h2 (Nat.pow_le_pow_right (by omega) (by omega))))]
  rw [Nat.div_one, Nat.mod_one]
  unfold roundCore
  have hBval : bitLenF 2200 (v * 2 ^ 1074) = L + 1074 := by
    rw [bitLenF_mul_pow v 1074 h1 (by
      calc v * 2 ^ 1074 < 2 ^ 53 * 2 ^ 1074 := by
            exact (Nat.mul_lt_mul_right (by positivity)).mpr h2
        _ ≤ 2 ^ 2200 := by rw [← pow_add]; exact Nat.pow_le_pow_right (by omega) (by omega))]
  rw [hBval, if_neg (by omega)]
  unfold roundBig roundedq
  have hsplit : v * 2 ^ 1074 = v * 2 ^ (53 - L) * 2 ^ (L + 1074 - 53) := by
    rw [mul_assoc, ← pow_add, show 53 - L + (L + 1074 - 53) = 1074 from by omega]
  have hq : v * 2 ^ 1074 / 2 ^ (L + 1074 - 53) = v * 2 ^ (53 - L) := by
    rw [hsplit]
    exact Nat.mul_div_cancel _ (by positivity)
  have ht : v * 2 ^ 1074 % 2 ^ (L + 1074 - 53) = 0 := by
    rw [hsplit]
    exact Nat.mul_mod_left _ _
  rw [ht, hq]
  have hcond : ¬ (2 ^ (L + 1074 - 53 - 1) < 0 ∨
      (2 ^ (L + 1074 - 53 - 1) = 0 ∧ (0 < 0 ∨ v * 2 ^ (53 - L) % 2 = 1))) := by
    rintro (hlt | ⟨heq, -⟩)
    · exact absurd hlt (Nat.not_lt.mpr (Nat.zero_le _))
    · exact absurd heq (pow_ne_zero _ (by omega))
  rw [if_neg hcond]
  have hqlt : v * 2 ^ (53 - L) < 2 ^ 53 := by
    calc v * 2 ^ (53 - L) < 2 ^ L * 2 ^ (53 - L) := by
          exact (Nat.mul_lt_mul_right (by positivity)).mpr hb
      _ = 2 ^ 53 := by rw [← pow_add, show L + (53 - L) = 53 from by omega]
  rw [if_neg (by omega), if_neg (by omega)]
  congr 1
  push_cast
  omega

theorem roundedq_R0 (Q s R R2 : ℕ) (h : R = 0) (h2 : R2 = 0) :
    roundedq Q R s = roundedq Q R2 s := by
  rw [h, h2]

theorem roundCore_R0 (Q d d2 : ℕ) (hd : 0 < d) (hd2 : 0 < d2) :
    roundCore Q 0 d = roundCore Q 0 d2 := by
  unfold roundCore roundSmall
  by_cases hB : bitLenF 2200 Q ≤ 53
  · rw [if_pos hB, if_pos hB, if_neg (by omega), if_neg (by omega)]
  · rw [if_neg hB, if_neg hB]

theorem roundPos_shift (c j : ℕ) :
    roundPosRat (c * 2 ^ j) (2 ^ j) = roundPosRat c 1 := by
  unfold roundPosRat
  have hiff : (2 ^ j * 2 ^ 1025 ≤ c * 2 ^ j) ↔ (1 * 2 ^ 1025 ≤ c) := by
    rw [Nat.one_mul, Nat.mul_comm (2 ^ j)]
    constructor
    · intro hh
      exact Nat.le_of_mul_le_mul_right hh (by positivity)
    · intro hh
      exact Nat.mul_le_mul_right _ hh
  rw [if_congr hiff rfl rfl]
  split_ifs with h
  · rfl
  · have hQ : c * 2 ^ j * 2 ^ 1074 / 2 ^ j = c * 2 ^ 1074 := by
      rw [Nat.mul_right_comm]
      exact Nat.mul_div_cancel _ (by positivity)
    have hR : c * 2 ^ j * 2 ^ 1074 % 2 ^ j = 0 := by
      rw [Nat.mul_right_comm]
      exact Nat.mul_mod_left _ _
    rw [hQ, hR, Nat.div_one, Nat.mod_one]
    exact roundCore_R0 _ _ _ (by positivity) (by omega)

theorem roundDyadic_zero (E : ℤ) : roundDyadic 0 E = .fin 0 (-1074) := by
  unfold roundDyadic roundRat
  split_ifs with h1 h2 h3
  · omega
  · rw [Int.zero_mul, show (0 : ℤ).natAbs = 0 from rfl, roundPos_zero 1 (by omega)]
  · omega
  · rw [show (0 : ℤ).natAbs = 0 from rfl, roundPos_zero _ (by positivity)]

theorem f64floor_shift (P j : ℕ) :
    f64floor ((P * 2 ^ j : ℕ) : ℤ) (-(j : ℤ)) = (P : ℤ) := by
  unfold f64floor
  by_cases hj : j = 0
  · subst hj
    norm_num
  · rw [if_neg (by omega), show (-(-(j : ℤ))).toNat = j from by omega]
    push_cast
    exact Int.mul_ediv_cancel _ (by positivity)

theorem f64floor_shift_neg (P j : ℕ) :
    f64floor (-((P * 2 ^ j : ℕ) : ℤ)) (-(j : ℤ)) = -(P : ℤ) := by
  unfold f64floor
  by_cases hj : j = 0
  · subst hj
    norm_num
  · rw [if_neg (by omega), show (-(-(j : ℤ))).toNat = j from by omega,
      show (-((P * 2 ^ j : ℕ) : ℤ)) = (-(P : ℤ)) * 2 ^ j from by push_cast; ring]
    exact Int.mul_ediv_cancel _ (by positivity)

theorem roundRat_pos_exact (P : ℕ) (h1 : 0 < P) (h2 : P < 2 ^ 53) :
    ∃ j : ℕ, roundRat ((P : ℕ) : ℤ) 1 = .fin ((P * 2 ^ j : ℕ) : ℤ) (-(j : ℤ)) := by
  obtain ⟨j, -, hj⟩ := roundPos_exact P h1 h2
  refine ⟨j, ?_⟩
  unfold roundRat
  rw [if_neg (by omega), Int.natAbs_ofNat, hj]

theorem roundDyadic_shift_pos (P J : ℕ) (h1 : 0 < P) (h2 : P < 2 ^ 53) :
    ∃ j : ℕ, roundDyadic ((P * 2 ^ J : ℕ) : ℤ) (-(J : ℤ)) =
      .fin ((P * 2 ^ j : ℕ) : ℤ) (-(j : ℤ)) := by
  unfold roundDyadic
  by_cases hJ : J = 0
  · subst hJ
    rw [if_pos (by omega)]
    have hx : ((P * 2 ^ 0 : ℕ) : ℤ) * 2 ^ ((-(0 : ℕ) : ℤ)).toNat = ((P : ℕ) : ℤ) := by
      push_cast
      norm_num
    rw [hx]
    exact roundRat_pos_exact P h1 h2
  · rw [if_neg (by omega), show ((-(-(J : ℕ) : ℤ))).toNat = J from by omega]
    unfold roundRat
    rw [if_neg (by omega), Int.natAbs_ofNat, roundPos_shift]
    obtain ⟨j, -, hj⟩ := roundPos_exact P h1 h2
    exact ⟨j, hj⟩

theorem roundRat_neg (n : ℤ) (d : ℕ) (h : 0 < n) : roundRat (-n) d = (roundRat n d).neg := by
  unfold roundRat
  rw [if_pos (by omega), if_neg (by omega), Int.natAbs_neg]

theorem roundDyadic_neg (m : ℤ) (E : ℤ) (h : 0 < m) :
    roundDyadic (-m) E = (roundDyadic m E).neg := by
  unfold roundDyadic
  split_ifs
  · rw [show (-m) * 2 ^ E.toNat = -(m * 2 ^ E.toNat) from by ring,
      roundRat_neg _ _ (by positivity)]
  · rw [roundRat_neg _ _ h]

theorem roundDyadic_shift_neg (P J : ℕ) (h1 : 0 < P) (h2 : P < 2 ^ 53) :
    ∃ j : ℕ, roundDyadic (-((P * 2 ^ J : ℕ) : ℤ)) (-(J : ℤ)) =
      .fin (-((P * 2 ^ j : ℕ) : ℤ)) (-(j : ℤ)) := by
  rw [roundDyadic_neg _ _ (by positivity)]
  obtain ⟨j, hj⟩ := roundDyadic_shift_pos P J h1 h2
  rw [hj]
  exact ⟨j, rfl⟩

theorem toTokenUnitsF_int (n : ℤ) (d : ℕ) (hp : 10 ^ d < 2 ^ 53)
    (h : n.natAbs * 10 ^ d < 2 ^ 53) :
    toTokenUnitsF { num := n, exp := 0 } d = .ok (n * 10 ^ d) := by
  unfold toTokenUnitsF f64OfDec f64Pow10
  dsimp only
  rw [pow_zero]
  obtain ⟨j2, -, h2⟩ := roundPos_exact (10 ^ d) (by positivity) hp
  have hpw : roundRat ((10 : ℤ) ^ d) 1 = .fin ((10 ^ d * 2 ^ j2 : ℕ) : ℤ) (-(j2 : ℤ)) := by
    unfold roundRat
    rw [if_neg (by
        have h0 : (0 : ℤ) ≤ 10 ^ d := by positivity
        omega),
      show ((10 : ℤ) ^ d) = ((10 ^ d : ℕ) : ℤ) from by push_cast; ring, Int.natAbs_ofNat]
    exact h2
  have hPpos : 0 < n.natAbs * 10 ^ d ∨ n = 0 := by
    rcases Nat.eq_zero_or_pos n.natAbs with h0 | h0
    · exact .inr (by omega)
    · exact .inl (by positivity)
  rcases lt_trichotomy n 0 with hn | hn | hn
  · have hA : 0 < n.natAbs := by omega
    have hA53 : n.natAbs < 2 ^ 53 :=
      lt_of_le_of_lt (Nat.le_mul_of_pos_right _ (by positivity)) h
    obtain ⟨j1, -, h1⟩ := roundPos_exact n.natAbs hA hA53
    have hofd : roundRat n 1 = .fin (-((n.natAbs * 2 ^ j1 : ℕ) : ℤ)) (-(j1 : ℤ)) := by
      unfold roundRat
      rw [if_pos hn, h1]
      rfl
    rw [hofd, hpw]
    simp only [f64Mul]
    rw [show (-((n.natAbs * 2 ^ j1 : ℕ) : ℤ)) * ((10 ^ d * 2 ^ j2 : ℕ) : ℤ) =
        -(((n.natAbs * 10 ^ d) * 2 ^ (j1 + j2) : ℕ) : ℤ) from by push_cast; ring,
      show (-(j1 : ℤ)) + (-(j2 : ℤ)) = -(((j1 + j2 : ℕ)) : ℤ) from by push_cast; ring]
    obtain ⟨j3, hj3⟩ := roundDyadic_shift_neg (n.natAbs * 10 ^ d) (j1 + j2)
      (by omega) h
    rw [hj3]
    dsimp only
    rw [f64floor_shift_neg]
    congr 1
    have hc : ((n.natAbs : ℕ) : ℤ) = -n := by omega
    push_cast [hc]
    ring
  · subst hn
    have hofd : roundRat (0 : ℤ) 1 = .fin 0 (-1074) := by
      unfold roundRat
      rw [if_neg (by omega), show (0 : ℤ).natAbs = 0 from rfl, roundPos_zero 1 (by omega)]
    rw [hofd, hpw]
    simp only [f64Mul]
    rw [show (0 : ℤ) * ((10 ^ d * 2 ^ j2 : ℕ) : ℤ) = 0 from by ring, roundDyadic_zero]
    dsimp only
    unfold f64floor
    rw [if_neg (by omega)]
    rw [Int.zero_ediv]
    norm_num
  · have hA : 0 < n.natAbs := by omega
    have hA53 : n.natAbs < 2 ^ 53 :=
      lt_of_le_of_lt (Nat.le_mul_of_pos_right _ (by positivity)) h
    obtain ⟨j1, -, h1⟩ := roundPos_exact n.natAbs hA hA53
    have hofd : roundRat n 1 = .fin ((n.natAbs * 2 ^ j1 : ℕ) : ℤ) (-(j1 : ℤ)) := by
      unfold roundRat
      rw [if_neg (by omega), h1]
    rw [hofd, hpw]
    simp only [f64Mul]
    rw [show ((n.natAbs * 2 ^ j1 : ℕ) : ℤ) * ((10 ^ d * 2 ^ j2 : ℕ) : ℤ) =
        (((n.natAbs * 10 ^ d) * 2 ^ (j1 + j2) : ℕ) : ℤ) from by push_cast; ring,
      show (-(j1 : ℤ)) + (-(j2 : ℤ)) = -(((j1 + j2 : ℕ)) : ℤ) from by push_cast; ring]
    obtain ⟨j3, hj3⟩ := roundDyadic_shift_pos (n.natAbs * 10 ^ d) (j1 + j2)
      (by omega) h
    rw [hj3]
    dsimp only
    rw [f64floor_shift]
    congr 1
    have hc : ((n.natAbs : ℕ) : ℤ) = n := by omega
    push_cast [hc]
    ring

theorem roundDyadic_nonneg_shape (m : ℤ) (E : ℤ) (h : 0 ≤ m) :
    (∃ (mm : ℕ) (e : ℤ), roundDyadic m E = .fin (mm : ℤ) e) ∨
    roundDyadic m E = .inf false := by
  unfold roundDyadic
  split_ifs
  · exact roundRat_nonneg_shape _ _ (by positivity)
  · exact roundRat_nonneg_shape _ _ h

theorem roundDyadic_nonpos_shape (m : ℤ) (E : ℤ) (h : m ≤ 0) :
    (∃ (mm : ℕ) (e : ℤ), roundDyadic m E = .fin (-(mm : ℤ)) e) ∨
    roundDyadic m E = .inf true := by
  unfold roundDyadic
  split_ifs
  · exact roundRat_nonpos_shape _ _ (by omega)
      (mul_nonpos_of_nonpos_of_nonneg h (by positivity))
  · exact roundRat_nonpos_shape _ _ (by positivity) h

theorem toTokenUnitsF_outcomes (x : DecNum) (d : ℕ) :
    (∃ z : ℤ, toTokenUnitsF x d = .ok z ∧ (0 ≤ x.num → 0 ≤ z) ∧ (x.num < 0 → z ≤ 0)) ∨
    toTokenUnitsF x d = .error "Cannot convert NaN to a BigInt" ∨
    toTokenUnitsF x d = .error "Cannot convert Infinity to a BigInt" := by
  unfold toTokenUnitsF f64OfDec f64Pow10
  by_cases hs : 0 ≤ x.num
  · rcases roundRat_nonneg_shape x.num (10 ^ x.exp) hs with ⟨m1, e1, h1⟩ | h1 <;>
      rcases roundRat_nonneg_shape ((10 : ℤ) ^ d) 1 (by positivity) with ⟨m2, e2, h2⟩ | h2 <;>
      rw [h1, h2] <;> simp only [f64Mul]
    · rw [show ((m1 : ℕ) : ℤ) * ((m2 : ℕ) : ℤ) = ((m1 * m2 : ℕ) : ℤ) from by push_cast; ring]
      rcases roundDyadic_nonneg_shape ((m1 * m2 : ℕ) : ℤ) (e1 + e2) (by positivity) with
        ⟨mm, e, hm⟩ | hm <;> rw [hm]
      · exact .inl ⟨f64floor (mm : ℤ) e, rfl,
          fun _ => f64floor_nonneg _ _ (by positivity), fun hneg => absurd hneg (by omega)⟩
      · exact .inr (.inr rfl)
    · by_cases hm1 : (m1 : ℤ) = 0
      · rw [if_pos hm1]
        exact .inr (.inl rfl)
      · rw [if_neg hm1]
        exact .inr (.inr rfl)
    · by_cases hm2 : (m2 : ℤ) = 0
      · rw [if_pos hm2]
        exact .inr (.inl rfl)
      · rw [if_neg hm2]
        exact .inr (.inr rfl)
    · exact .inr (.inr trivial)
  · have hneg : x.num ≤ 0 := by omega
    rcases roundRat_nonpos_shape x.num (10 ^ x.exp) (by positivity) hneg with
        ⟨m1, e1, h1⟩ | h1 <;>
      rcases roundRat_nonneg_shape ((10 : ℤ) ^ d) 1 (by positivity) with ⟨m2, e2, h2⟩ | h2 <;>
      rw [h1, h2] <;> simp only [f64Mul]
    · rw [show (-(m1 : ℤ)) * ((m2 : ℕ) : ℤ) = -((m1 * m2 : ℕ) : ℤ) from by push_cast; ring]
      rcases roundDyadic_nonpos_shape (-((m1 * m2 : ℕ) : ℤ)) (e1 + e2) (by
          have h0 : (0 : ℤ) ≤ ((m1 * m2 : ℕ) : ℤ) := by positivity
          omega) with
        ⟨mm, e, hm⟩ | hm <;> rw [hm]
      · exact .inl ⟨f64floor (-(mm : ℤ)) e, rfl, fun hge => absurd hge hs,
          fun _ => f64floor_nonpos _ _ (by omega)⟩
      · exact .inr (.inr rfl)
    · by_cases hm1 : (-(m1 : ℤ)) = 0
      · rw [if_pos hm1]
        exact .inr (.inl rfl)
      · rw [if_neg hm1]
        exact .inr (.inr rfl)
    · by_cases hm2 : (m2 : ℤ) = 0
      · rw [if_pos hm2]
        exact .inr (.inl rfl)
      · rw [if_neg hm2]
        exact .inr (.inr rfl)
    · exact .inr (.inr trivial)

/-! Claim theorems. -/

/-- Claim C1 counterexample: the instruction with data `[2,1,0,0]` followed
by the little-endian amount 1_000_000 has 4-byte little-endian tag 258, so
under the specified layout it does not match, yet the implemented matcher
accepts it - the stated iff is false at this input. -/
theorem claim_C1_counterexample :
    verifySOLTransferInstruction c1TagBytesIns pkRecipient 1000000 = true ∧
    ¬ specNativeMatch c1TagBytesIns pkRecipient 1000000 := by
  constructor
  · decide
  · decide

/-- Claim C1 (amended): a Native instruction matches iff its program id is
the system program, its data is exactly 12 bytes whose FIRST byte is 2 (the
remaining three tag bytes are ignored by the code), its decoded 8-byte
little-endian amount at offset 4 is at least the expected amount, and its
second account is the expected recipient; and the three concrete scenarios
hold: 1_000_000 base units to `R` verifies, 999_999 to `R` does not, and
1_000_000 to a different recipient does not. -/
theorem claim_C1_amended :
    (∀ (ins : Instruction) (r : Pubkey) (amt : ℤ),
       verifySOLTransferInstruction ins r amt = true ↔
         (ins.programId = SYSTEM_PROGRAM_ID ∧ ins.data.length = 12 ∧
          ins.data.get? 0 = some 2 ∧ amt ≤ (readUInt64LE ins.data 4 : ℤ) ∧
          ins.keys.get? 1 = some r)) ∧
    (verifyPaymentInstructions pkParseNever ataDerive
        ⟨[nativeTransferIns 1000000 pkRecipient]⟩ solExpectedConfig).isValid = true ∧
    (verifyPaymentInstructions pkParseNever ataDerive
        ⟨[nativeTransferIns 999999 pkRecipient]⟩ solExpectedConfig).isValid = false ∧
    (verifyPaymentInstructions pkParseNever ataDerive
        ⟨[nativeTransferIns 1000000 pkRecipient2]⟩ solExpectedConfig).isValid = false := by
  refine ⟨verifySOL_iff, ?_, ?_, ?_⟩
  · decide
  · decide
  · decide

/-- Claim C2 code evaluation: with price 0.001 and token kind SOL, the
challenge body reports `payment.amount = 0` (the code multiplies the SOL
price by 1 instead of `10 ^ 9`), not the 1_000_000 base units the claim
requires, while the verification branch of the same middleware computes an
expected amount of 1_000_000 base units from the same options. -/
theorem claim_C2_code_divergence :
    (challengeResponse c2Opts).status = 402 ∧
    (challengeResponse c2Opts).payment.recipient = "Rxyz" ∧
    (challengeResponse c2Opts).payment.amount = 0 ∧
    (challengeResponse c2Opts).payment.amount ≠ 1000000 ∧
    toTokenUnits (middlewareExpectedConfig c2Opts).amount
      (effectiveDecimals (middlewareExpectedConfig c2Opts)) = .ok 1000000 := by
  refine ⟨rfl, rfl, by decide, by decide, by decide⟩

/-- Claim C3: a Fungible (non-SOL) verification whose expected
specification carries no mint address reports `isValid = false` for every
transaction, every key parser and every address derivation. -/
theorem claim_C3_no_mint_invalid :
    ∀ (parsePk : String → Except String Pubkey)
      (ata : Pubkey → Pubkey → Except String Pubkey)
      (tx : SolTransaction) (c : PaymentConfig),
      c.tokenType ≠ TokenType.SOL → c.mintAddress = none →
      (verifyPaymentInstructions parsePk ata tx c).isValid = false := by
  intro p a tx c hsol hm
  unfold verifyPaymentInstructions
  cases hi : verifyInner p a tx c with
  | error e => rfl
  | ok r =>
    obtain ⟨rec, amt, -, -, hloop⟩ := verifyInner_ok_elim p a tx c r hi
    rw [verifyLoop_mint_none p a c rec amt tx.instructions hsol hm] at hloop
    injection hloop with h
    rw [← h]

/-- Claim C3 witness: the mint-less USDC specification rejects even a
transaction whose only instruction is a well-formed token transfer of a
sufficient amount to the derived destination. -/
theorem claim_C3_witness :
    cUSDCNoMint.tokenType ≠ TokenType.SOL ∧ cUSDCNoMint.mintAddress = none ∧
    (verifyPaymentInstructions pkParseNever ataDerive ⟨[splUncheckedIns]⟩
        cUSDCNoMint).isValid = false :=
  ⟨by decide, rfl,
    claim_C3_no_mint_invalid pkParseNever ataDerive ⟨[splUncheckedIns]⟩ cUSDCNoMint
      (by decide) rfl⟩

/-- Claim C4 counterexample: the checked-variant (tag 12) transfer carrying
a sufficient amount (1_000_000, read at offset 1) to the derived
destination token account is rejected by the verifier, while the identical
basic (tag 3) transfer is accepted - the decoder does not accept both
forms. -/
theorem claim_C4_counterexample :
    verifySPLTransferInstruction ataDerive splCheckedIns pkRecipient 1000000
        (some mintKey) = false ∧
    ataDerive mintKey pkRecipient = .ok (mintKey * 1000003 + pkRecipient) ∧
    splCheckedIns.keys.get? 2 = some (mintKey * 1000003 + pkRecipient) ∧
    readUInt64LE splCheckedIns.data 1 = 1000000 ∧
    verifySPLTransferInstruction ataDerive splUncheckedIns pkRecipient 1000000
        (some mintKey) = true := by
  refine ⟨by decide, by decide, by decide, by decide, by decide⟩

/-- Claim C4 (amended): the fungible decoder accepts exactly the basic
(unchecked, tag 3) transfer form - an instruction matches iff it is under
the token program, has at least 9 data bytes with first byte 3, carries at
least the expected amount at offset 1, and its second account is the
derived destination token account; any instruction whose first data byte
is 12 (the checked-transfer tag) is rejected. -/
theorem claim_C4_amended :
    (∀ (ata : Pubkey → Pubkey → Except String Pubkey) (ins : Instruction)
       (r : Pubkey) (amt : ℤ) (m : Pubkey),
       verifySPLTransferInstruction ata ins r amt (some m) = true ↔
         (ins.programId = TOKEN_PROGRAM_ID ∧ 9 ≤ ins.data.length ∧
          ins.data.get? 0 = some 3 ∧ amt ≤ (readUInt64LE ins.data 1 : ℤ) ∧
          ∃ t, ata m r = .ok t ∧ ins.keys.get? 1 = some t)) ∧
    (∀ (ata : Pubkey → Pubkey → Except String Pubkey) (ins : Instruction)
       (r : Pubkey) (amt : ℤ) (m : Option Pubkey),
       ins.data.get? 0 = some 12 →
       verifySPLTransferInstruction ata ins r amt m = false) := by
  refine ⟨verifySPL_some_iff, ?_⟩
  intro ata ins r amt m h12
  cases m with
  | none => exact verifySPL_mint_none ata ins r amt
  | some mv =>
    by_cases hv : verifySPLTransferInstruction ata ins r amt (some mv) = true
    · obtain ⟨-, -, h3, -⟩ := (verifySPL_some_iff ata ins r amt mv).mp hv
      rw [h12] at h3
      cases h3
    · exact Bool.not_eq_true _ |>.mp hv

/-- Claim C4 witness: the amended theorem applied to the concrete checked
instruction (first data byte 12), discharging its hypothesis. -/
theorem claim_C4_witness :
    splCheckedIns.data.get? 0 = some 12 ∧
    verifySPLTransferInstruction ataDerive splCheckedIns pkRecipient 1000000
        (some mintKey) = false :=
  ⟨by decide,
    claim_C4_amended.2 ataDerive splCheckedIns pkRecipient 1000000 (some mintKey)
      (by decide)⟩

/-- Claim C5: when the requested method resolves to Auto and the
configuration validates, the on-chain path is chosen iff
`preferOnChain === true` and a payer keypair was supplied; otherwise the
facilitator path is taken, which fails with the no-facilitator-configured
error - before any network interaction - when no facilitator is
configured, and proceeds to the facilitator submission otherwise. -/
theorem claim_C5_auto_routing :
    ∀ (parsePk : String → Except String Pubkey) (cfg : SDKConfig)
      (config : PaymentDraft) (m : Option PaymentMethod) (payer : Bool),
      (validateConfig parsePk config).1 = true →
      resolveMethod m cfg = PaymentMethod.auto →
      ((payDecision parsePk cfg config m payer = .onChainSubmit ↔
          (cfg.preferOnChain = some true ∧ payer = true)) ∧
       (¬(cfg.preferOnChain = some true ∧ payer = true) →
          (facilitatorConfigured cfg = false →
             payDecision parsePk cfg config m payer = .noFacilitatorConfigured) ∧
          (facilitatorConfigured cfg = true →
             payDecision parsePk cfg config m payer = .facilitatorSubmit))) := by
  intro parsePk cfg config m payer hval hauto
  unfold payDecision
  simp only [hval, hauto]
  by_cases hcase : cfg.preferOnChain = some true ∧ payer = true
  · obtain ⟨h1, h2⟩ := hcase
    simp [h1, h2]
  · have hdec : decide (cfg.preferOnChain = some true ∧ payer = true) = false :=
      decide_eq_false hcase
    simp only [hdec, Bool.false_eq_true, if_false, Bool.true_eq_false]
    refine ⟨⟨fun h => ?_, fun hc => absurd hc hcase⟩,
      fun _ => ⟨fun hf => by simp [hf], fun hf => ?_⟩⟩
    · split_ifs at h
    · have hiff : facilitatorConfigured cfg = false ↔ False := by simp [hf]
      simp [hiff, hf]

/-- Claim C5 witness: with `preferOnChain := some true` and a valid SOL
draft, Auto resolves to the on-chain path when a payer keypair is present
and to the no-facilitator-configured failure when it is not (no
facilitator being configured). -/
theorem claim_C5_witness :
    (validateConfig pkParseNever validDraftSOL).1 = true ∧
    resolveMethod none sdkAutoOn = PaymentMethod.auto ∧
    payDecision pkParseNever sdkAutoOn validDraftSOL none true = .onChainSubmit ∧
    payDecision pkParseNever sdkAutoOn validDraftSOL none false = .noFacilitatorConfigured :=
  ⟨by decide, rfl,
    (claim_C5_auto_routing pkParseNever sdkAutoOn validDraftSOL none true
        (by decide) rfl).1.mpr ⟨rfl, rfl⟩,
    ((claim_C5_auto_routing pkParseNever sdkAutoOn validDraftSOL none false
        (by decide) rfl).2 (by simp)).1 rfl⟩

/-- Claim C6: the verifier never propagates an exception - its result
always is a structured `VerificationResult` that either reports success or
carries an error message; in particular, whenever the body raises an
internal exception `e`, the result is exactly
`{isValid := false, error := "Verification failed: " ++ e}`. -/
theorem claim_C6_never_throws :
    ∀ (parsePk : String → Except String Pubkey)
      (ata : Pubkey → Pubkey → Except String Pubkey)
      (tx : SolTransaction) (c : PaymentConfig),
      ((verifyPaymentInstructions parsePk ata tx c).isValid = true ∨
       (verifyPaymentInstructions parsePk ata tx c).error.isSome = true) ∧
      (∀ e, verifyInner parsePk ata tx c = .error e →
        verifyPaymentInstructions parsePk ata tx c =
          { isValid := false, error := some ("Verification failed: " ++ e),
            details := none }) := by
  intro p a tx c
  constructor
  · unfold verifyPaymentInstructions
    cases hi : verifyInner p a tx c with
    | error e => right; rfl
    | ok r =>
      obtain ⟨rec, amt, -, -, hloop⟩ := verifyInner_ok_elim p a tx c r hi
      rcases verifyLoop_ok_cases p a c rec amt tx.instructions r hloop with h | h
      · left
        rw [h]
      · right
        rw [h]
        rfl
  · intro e he
    unfold verifyPaymentInstructions
    rw [he]

/-- Claim C6 witness: a specification whose recipient string the external
key parser rejects makes the body raise, and the verifier converts the
exception into the structured failure result. -/
theorem claim_C6_witness :
    verifyInner pkParseNever ataDerive ⟨[]⟩ badRecipientConfig =
      .error "Invalid public key input" ∧
    verifyPaymentInstructions pkParseNever ataDerive ⟨[]⟩ badRecipientConfig =
      { isValid := false, error := some "Verification failed: Invalid public key input",
        details := none } :=
  ⟨rfl,
    (claim_C6_never_throws pkParseNever ataDerive ⟨[]⟩ badRecipientConfig).2
      "Invalid public key input" rfl⟩

/-- Claim C7 counterexample: the empty draft violates all four presence
rules and the draft missing only the token type violates exactly one, yet
`build()` fails with the identical single-rule message on both - the
failure does not list all violated rules. -/
theorem claim_C7_counterexample :
    buildConfig draftEmpty = .error "Token type is required" ∧
    buildConfig draftOnlyTokenMissing = .error "Token type is required" ∧
    draftEmpty ≠ draftOnlyTokenMissing := by
  refine ⟨rfl, rfl, by decide⟩

/-- Claim C7 (amended): `build()` fails with the FIRST violated presence
rule in check order (token type, amount, recipient, mint address) and
succeeds when none is violated; the companion `validateConfig` is the
function that lists every violated rule. -/
theorem claim_C7_amended :
    ∀ (d : PaymentDraft) (parsePk : String → Except String Pubkey),
      (∀ msg, firstViolation d = some msg → buildConfig d = .error msg) ∧
      (firstViolation d = none → ∃ c, buildConfig d = .ok c) ∧
      (d.tokenType = none → "Token type is required" ∈ (validateConfig parsePk d).2) ∧
      (d.amount = none → "Amount is required" ∈ (validateConfig parsePk d).2) ∧
      (jsFalsyAddr d.recipient = true →
        "Recipient is required" ∈ (validateConfig parsePk d).2) ∧
      (d.tokenType ≠ some TokenType.SOL → jsFalsyAddr d.mintAddress = true →
        "Mint address is required for SPL token payments" ∈ (validateConfig parsePk d).2) := by
  intro d parsePk
  refine ⟨?_, ?_, ?_, ?_, ?_, ?_⟩
  · intro msg h
    unfold firstViolation at h
    unfold buildConfig
    split_ifs at h with h1 h2 h3 h4
    · injection h with h2
      rw [h1, ← h2]
    · obtain ⟨tt, ht⟩ := Option.ne_none_iff_exists'.mp h1
      injection h with h3
      rw [ht, h2, ← h3]
    · obtain ⟨tt, ht⟩ := Option.ne_none_iff_exists'.mp h1
      obtain ⟨am, ha⟩ := Option.ne_none_iff_exists'.mp h2
      injection h with h4
      rw [ht, ha]
      dsimp only
      rw [if_pos h3, ← h4]
    · obtain ⟨tt, ht⟩ := Option.ne_none_iff_exists'.mp h1
      obtain ⟨am, ha⟩ := Option.ne_none_iff_exists'.mp h2
      injection h with h5
      have htt : tt ≠ TokenType.SOL := by
        intro hc
        exact h4.1 (by rw [ht, hc])
      rw [ht, ha]
      dsimp only
      rw [if_neg h3, if_pos ⟨htt, h4.2⟩, ← h5]
  · intro h
    unfold firstViolation at h
    unfold buildConfig
    split_ifs at h with h1 h2 h3 h4
    obtain ⟨tt, ht⟩ := Option.ne_none_iff_exists'.mp h1
    obtain ⟨am, ha⟩ := Option.ne_none_iff_exists'.mp h2
    have h4a : ¬(tt ≠ TokenType.SOL ∧ jsFalsyAddr d.mintAddress = true) := by
      intro hc
      have hne : d.tokenType ≠ some TokenType.SOL := by
        rw [ht]
        intro he
        exact hc.1 (Option.some.inj he)
      exact h4 ⟨hne, hc.2⟩
    cases hrc : d.recipient with
    | none =>
      exfalso
      apply h3
      unfold jsFalsyAddr
      rw [hrc]
    | some rv =>
      rw [hrc] at h3
      rw [ht, ha]
      dsimp only
      rw [if_neg h3, if_neg h4a]
      exact ⟨_, rfl⟩
  · intro h
    unfold validateConfig
    simp [h, List.mem_append]
  · intro h
    unfold validateConfig
    simp [h, List.mem_append]
  · intro h
    unfold validateConfig
    simp [h, List.mem_append]
  · intro h1 h2
    unfold validateConfig
    simp [h1, h2, List.mem_append]

/-- Claim C7 witness: the empty draft takes the first-rule failure, and
`validateConfig` on the same draft lists the amount and recipient rules as
well. -/
theorem claim_C7_witness :
    buildConfig draftEmpty = .error "Token type is required" ∧
    "Amount is required" ∈ (validateConfig pkParseNever draftEmpty).2 ∧
    "Recipient is required" ∈ (validateConfig pkParseNever draftEmpty).2 :=
  ⟨(claim_C7_amended draftEmpty pkParseNever).1 "Token type is required" rfl,
    (claim_C7_amended draftEmpty pkParseNever).2.2.2.1 rfl,
    (claim_C7_amended draftEmpty pkParseNever).2.2.2.2.1 rfl⟩

/-- Claim C8 counterexample: a negative amount does not fail - the
converter returns the negative scaled integer - and the scaled result is
the floored IEEE-754 double product, not the exact truncation: `"0.29"`
parses exactly to `29 / 10 ^ 2`, whose exact scaling by `10 ^ 2`
truncates to 29, but the program computes
`0.29 * 100 = 28.999999999999996` in doubles and floors it to 28. -/
theorem claim_C8_counterexample :
    toTokenUnits (.str "-1") 9 = .ok (-1000000000) ∧
    jsParseFloat "0.29" = some { num := 29, exp := 2 } ∧
    toTokenUnits (.str "0.29") 2 = .ok 28 ∧
    decFloorMul10 { num := 29, exp := 2 } 2 = 29 := by
  refine ⟨by decide, by decide, by decide, by decide⟩

/-- Claim C8 (amended): `toTokenUnits` multiplies in IEEE-754 binary64
and floors: it fails with the `BigInt`-on-`NaN` conversion error when the
input does not parse to a number; any parsed input yields either the
floored double product - nonnegative for nonnegative inputs, nonpositive
for negative inputs, which are NOT rejected - or a `BigInt` conversion
error on a non-finite product; and on integer amounts within the exact
range (`|n| * 10 ^ d < 2 ^ 53`) the result is exactly `n * 10 ^ d`.
Outside the exact range the floored double product can differ from the
exact truncation, as the `"0.29"` counterexample shows. -/
theorem claim_C8_amended :
    (∀ (a : AmountVal) (d : ℕ), amountNumber a = none →
      toTokenUnits a d = .error "Cannot convert NaN to a BigInt") ∧
    (∀ (a : AmountVal) (d : ℕ) (x : DecNum), amountNumber a = some x →
      (∃ z : ℤ, toTokenUnits a d = .ok z ∧ (0 ≤ x.num → 0 ≤ z) ∧ (x.num < 0 → z ≤ 0)) ∨
      toTokenUnits a d = .error "Cannot convert NaN to a BigInt" ∨
      toTokenUnits a d = .error "Cannot convert Infinity to a BigInt") ∧
    (∀ (n : ℤ) (d : ℕ), 10 ^ d < 2 ^ 53 → n.natAbs * 10 ^ d < 2 ^ 53 →
      toTokenUnits (.num (some { num := n, exp := 0 })) d = .ok (n * 10 ^ d)) := by
  refine ⟨fun a d h => ?_, fun a d x h => ?_, fun n d h1 h2 => ?_⟩
  · unfold toTokenUnits
    rw [h]
  · unfold toTokenUnits
    rw [h]
    exact toTokenUnitsF_outcomes x d
  · exact toTokenUnitsF_int n d h1 h2

/-- Claim C8 witness: the amended theorem applied at concrete inputs: a
non-numeric string fails with the `NaN` conversion error; the parsed
`"0.29"` yields a nonnegative floored product; and the integer amount
`-3` at 9 decimals lies in the exact range, returning exactly
`-3 * 10 ^ 9` (not an `InvalidAmount` failure). -/
theorem claim_C8_witness :
    toTokenUnits (.str "abc") 6 = .error "Cannot convert NaN to a BigInt" ∧
    ((∃ z : ℤ, toTokenUnits (.str "0.29") 2 = .ok z ∧
        (0 ≤ (29 : ℤ) → 0 ≤ z) ∧ ((29 : ℤ) < 0 → z ≤ 0)) ∨
      toTokenUnits (.str "0.29") 2 = .error "Cannot convert NaN to a BigInt" ∨
      toTokenUnits (.str "0.29") 2 = .error "Cannot convert Infinity to a BigInt") ∧
    toTokenUnits (.num (some { num := -3, exp := 0 })) 9 = .ok (-3000000000) :=
  ⟨claim_C8_amended.1 (.str "abc") 6 (by decide),
    claim_C8_amended.2.1 (.str "0.29") 2 { num := 29, exp := 2 } (by decide),
    by
      have h := claim_C8_amended.2.2 (-3) 9 (by decide) (by decide)
      norm_num at h
      exact h⟩

/-- Claim C10: whenever verification succeeds, the reported
`details.amount` is the expected base-unit amount computed from the
expected specification (recipient and mint likewise come from the
specification), not the amount carried by the matching instruction. -/
theorem claim_C10_details_amount :
    ∀ (parsePk : String → Except String Pubkey)
      (ata : Pubkey → Pubkey → Except String Pubkey)
      (tx : SolTransaction) (c : PaymentConfig),
      (verifyPaymentInstructions parsePk ata tx c).isValid = true →
      ∃ rec amt, resolveAddr parsePk c.recipient = .ok rec ∧
        toTokenUnits c.amount (effectiveDecimals c) = .ok amt ∧
        (verifyPaymentInstructions parsePk ata tx c).details =
          some { amount := amt, recipient := rec, tokenType := c.tokenType,
                 mintAddress := detailsMint c } := by
  intro p a tx c hv
  unfold verifyPaymentInstructions at hv ⊢
  cases hi : verifyInner p a tx c with
  | error e =>
    rw [hi] at hv
    simp at hv
  | ok r =>
    rw [hi] at hv
    dsimp only at hv
    obtain ⟨rec, amt, h1, h2, hloop⟩ := verifyInner_ok_elim p a tx c r hi
    rcases verifyLoop_ok_cases p a c rec amt tx.instructions r hloop with h | h
    · refine ⟨rec, amt, h1, h2, ?_⟩
      rw [h]
    · rw [h] at hv
      simp at hv

/-- Claim C10 witness: a transaction transferring 2_000_000 base units
against an expected 1_000_000 verifies (the ≥ policy), and the reported
details carry the expected 1_000_000, not the transferred 2_000_000. -/
theorem claim_C10_witness :
    (verifyPaymentInstructions pkParseNever ataDerive overpayTx
        solExpectedConfig).isValid = true ∧
    readUInt64LE (nativeTransferIns 2000000 pkRecipient).data 4 = 2000000 ∧
    toTokenUnits solExpectedConfig.amount (effectiveDecimals solExpectedConfig) =
      .ok 1000000 ∧
    (∃ rec amt, resolveAddr pkParseNever solExpectedConfig.recipient = .ok rec ∧
      toTokenUnits solExpectedConfig.amount (effectiveDecimals solExpectedConfig) = .ok amt ∧
      (verifyPaymentInstructions pkParseNever ataDerive overpayTx
          solExpectedConfig).details =
        some { amount := amt, recipient := rec,
               tokenType := solExpectedConfig.tokenType,
               mintAddress := detailsMint solExpectedConfig }) :=
  ⟨by decide, by decide, by decide,
    claim_C10_details_amount pkParseNever ataDerive overpayTx solExpectedConfig
      (by decide)⟩

theorem b64Val_b64Char : ∀ n, n < 64 → b64Val (b64Char n) = some n := by decide

theorem b64Char_ne_pad : ∀ n, b64Char n ≠ '=' := by
  intro n
  unfold b64Char
  cases h : b64Alphabet.get? n with
  | none => simp
  | some c =>
    have hmem : c ∈ b64Alphabet := List.get?_mem h
    have hall : ∀ a ∈ b64Alphabet, a ≠ '=' := by decide
    simpa using hall c hmem

theorem b64_roundtrip : ∀ bs : List Nat, (∀ b ∈ bs, b < 256) →
    b64DecodeChunks (b64EncodeChunks bs) = some bs
  | [] => fun _ => rfl
  | [b1] => fun h => by
    have hb1 : b1 < 256 := h b1 (by simp)
    rw [b64EncodeChunks, b64DecodeChunks, b64Val_b64Char _ (by omega),
      b64Val_b64Char _ (by omega)]
    dsimp only
    rw [if_pos rfl, if_pos ⟨rfl, rfl, by omega⟩]
    have he : b1 / 4 * 4 + b1 % 4 * 16 / 16 = b1 := by omega
    rw [he]
  | [b1, b2] => fun h => by
    have hb1 : b1 < 256 := h b1 (by simp)
    have hb2 : b2 < 256 := h b2 (by simp)
    rw [b64EncodeChunks, b64DecodeChunks, b64Val_b64Char _ (by omega),
      b64Val_b64Char _ (by omega)]
    dsimp only
    rw [if_neg (b64Char_ne_pad _), b64Val_b64Char _ (by omega)]
    dsimp only
    rw [if_pos rfl, if_pos ⟨rfl, by omega⟩]
    have he1 : b1 / 4 * 4 + (b1 % 4 * 16 + b2 / 16) / 16 = b1 := by omega
    have he2 : (b1 % 4 * 16 + b2 / 16) % 16 * 16 + b2 % 16 * 4 / 4 = b2 := by omega
    rw [he1, he2]
  | b1 :: b2 :: b3 :: rest => fun h => by
    have hb1 : b1 < 256 := h b1 (by simp)
    have hb2 : b2 < 256 := h b2 (by simp)
    have hb3 : b3 < 256 := h b3 (by simp)
    have ih := b64_roundtrip rest (fun b hb => h b (by simp [hb]))
    rw [b64EncodeChunks, b64DecodeChunks, b64Val_b64Char _ (by omega),
      b64Val_b64Char _ (by omega)]
    dsimp only
    rw [if_neg (b64Char_ne_pad _), b64Val_b64Char _ (by omega)]
    dsimp only
    rw [if_neg (b64Char_ne_pad _), b64Val_b64Char _ (by omega)]
    dsimp only
    rw [ih]
    have he1 : b1 / 4 * 4 + (b1 % 4 * 16 + b2 / 16) / 16 = b1 := by omega
    have he2 : (b1 % 4 * 16 + b2 / 16) % 16 * 16 + (b2 % 16 * 4 + b3 / 64) / 4 = b2 := by
      omega
    have he3 : (b2 % 16 * 4 + b3 / 64) % 4 * 64 + b3 % 64 = b3 := by omega
    rw [he1, he2, he3]

theorem char_toNat_facts (c : Char) :
    c.toNat < 1114112 ∧ ¬(55296 ≤ c.toNat ∧ c.toNat < 57344) := by
  have h := c.valid
  unfold UInt32.isValidChar Nat.isValidChar at h
  have : Char.toNat c = c.val.toNat := rfl
  rcases h with h | h <;> omega

theorem utf8_roundtrip_char (c : Char) (bs : List Nat) :
    utf8Decode (utf8EncodeChar c ++ bs) = utf8Cont c (utf8Decode bs) := by
  obtain ⟨hlt, hsur⟩ := char_toNat_facts c
  unfold utf8EncodeChar
  by_cases h1 : c.toNat < 128
  · rw [if_pos h1]
    show utf8Decode (c.toNat :: bs) = _
    rw [utf8Decode, if_pos h1, Char.ofNat_toNat]
  · rw [if_neg h1]
    by_cases h2 : c.toNat < 2048
    · rw [if_pos h2]
      show utf8Decode ((192 + c.toNat / 64) :: (128 + c.toNat % 64) :: bs) = _
      rw [utf8Decode, if_neg (by omega), utf8Dec2, if_neg (by omega), if_pos (by omega),
        if_pos (by omega)]
      have he : (192 + c.toNat / 64 - 192) * 64 + (128 + c.toNat % 64 - 128) = c.toNat := by
        omega
      rw [he, Char.ofNat_toNat]
    · rw [if_neg h2]
      by_cases h3 : c.toNat < 65536
      · rw [if_pos h3]
        show utf8Decode
          ((224 + c.toNat / 4096) :: (128 + c.toNat / 64 % 64) :: (128 + c.toNat % 64) :: bs) = _
        rw [utf8Decode, if_neg (by omega), utf8Dec2, if_neg (by omega), if_neg (by omega),
          utf8Dec3, if_pos (by omega), if_pos (by omega)]
        have he : (224 + c.toNat / 4096 - 224) * 4096 + (128 + c.toNat / 64 % 64 - 128) * 64
            + (128 + c.toNat % 64 - 128) = c.toNat := by omega
        rw [he, Char.ofNat_toNat]
      · rw [if_neg h3]
        show utf8Decode
          ((240 + c.toNat / 262144) :: (128 + c.toNat / 4096 % 64) :: (128 + c.toNat / 64 % 64)
            :: (128 + c.toNat % 64) :: bs) = _
        rw [utf8Decode, if_neg (by omega), utf8Dec2, if_neg (by omega), if_neg (by omega),
          utf8Dec3, if_neg (by omega), utf8Dec4, if_pos (by omega), if_pos (by omega)]
        have he : (240 + c.toNat / 262144 - 240) * 262144
            + (128 + c.toNat / 4096 % 64 - 128) * 4096
            + (128 + c.toNat / 64 % 64 - 128) * 64 + (128 + c.toNat % 64 - 128) = c.toNat := by
          omega
        rw [he, Char.ofNat_toNat]

theorem utf8_roundtrip : ∀ cs : List Char, utf8Decode (utf8Encode cs) = some cs := by
  intro cs
  induction cs with
  | nil => rfl
  | cons c rest ih =>
    rw [utf8Encode, utf8_roundtrip_char, ih]
    rfl

theorem skipWs_cons_of {c : Char} (cs : List Char) (h : jsonWs c = false) :
    skipWs (c :: cs) = c :: cs := by
  simp [skipWs, List.dropWhile_cons, h]

theorem decDigitChar_toNat : ∀ d, d < 10 → (decDigitChar d).toNat = 48 + d := by decide

theorem decDigitChar_isDigit : ∀ d, d < 10 → (decDigitChar d).isDigit = true := by decide

theorem hexVal_hexDigitChar : ∀ d, d < 16 → hexVal (hexDigitChar d) = some d := by decide

theorem natChars_digits : ∀ n, ∀ c ∈ natChars n, c.isDigit = true := by
  intro n
  induction n using Nat.strong_induction_on with
  | _ n ih =>
    intro c hc
    rw [natChars] at hc
    by_cases h : n < 10
    · rw [if_pos h] at hc
      simp at hc
      rw [hc]
      exact decDigitChar_isDigit n h
    · rw [if_neg h] at hc
      rcases List.mem_append.mp hc with h2 | h2
      · exact ih (n / 10) (Nat.div_lt_self (by omega) (by omega)) c h2
      · simp at h2
        rw [h2]
        exact decDigitChar_isDigit (n % 10) (Nat.mod_lt _ (by omega))

theorem natChars_head : ∀ n, ∃ d tl, d < 10 ∧ natChars n = decDigitChar d :: tl := by
  intro n
  induction n using Nat.strong_induction_on with
  | _ n ih =>
    rw [natChars]
    by_cases h : n < 10
    · rw [if_pos h]
      exact ⟨n, [], h, rfl⟩
    · rw [if_neg h]
      obtain ⟨d, tl, hd, he⟩ := ih (n / 10) (Nat.div_lt_self (by omega) (by omega))
      exact ⟨d, tl ++ [decDigitChar (n % 10)], hd, by rw [he]; rfl⟩

theorem natOfDigits_append (ds : List Char) (c : Char) :
    natOfDigits (ds ++ [c]) = natOfDigits ds * 10 + (c.toNat - 48) := by
  simp [natOfDigits]

theorem natOfDigits_natChars : ∀ n, natOfDigits (natChars n) = n := by
  intro n
  induction n using Nat.strong_induction_on with
  | _ n ih =>
    rw [natChars]
    by_cases h : n < 10
    · rw [if_pos h]
      show natOfDigits ([] ++ [decDigitChar n]) = n
      rw [natOfDigits_append, decDigitChar_toNat n h]
      simp [natOfDigits]
    · rw [if_neg h]
      rw [natOfDigits_append, ih (n / 10) (Nat.div_lt_self (by omega) (by omega)),
        decDigitChar_toNat (n % 10) (Nat.mod_lt _ (by omega))]
      omega

theorem span_digits : ∀ (ds rest : List Char), (∀ c ∈ ds, c.isDigit = true) →
    noDigitHead rest →
    (ds ++ rest).takeWhile Char.isDigit = ds ∧ (ds ++ rest).dropWhile Char.isDigit = rest := by
  intro ds
  induction ds with
  | nil =>
    intro rest _ hrest
    cases rest with
    | nil => exact ⟨rfl, rfl⟩
    | cons r rs =>
      unfold noDigitHead at hrest
      constructor
      · simp [List.takeWhile_cons, hrest]
      · simp [List.dropWhile_cons, hrest]
  | cons d ds ih =>
    intro rest hds hrest
    have hd : d.isDigit = true := hds d (by simp)
    obtain ⟨h1, h2⟩ := ih rest (fun c hc => hds c (by simp [hc])) hrest
    constructor
    · simp [List.takeWhile_cons, hd, h1]
    · simp [List.dropWhile_cons, hd, h2]

theorem parseNatNum_natChars (n : Nat) (rest : List Char) (hrest : noDigitHead rest) :
    parseNatNum (natChars n ++ rest) = some (n, rest) := by
  obtain ⟨htake, hdrop⟩ := span_digits (natChars n) rest (natChars_digits n) hrest
  unfold parseNatNum
  rw [htake, hdrop]
  obtain ⟨d, tl, -, he⟩ := natChars_head n
  rw [if_neg (by rw [he]; simp), natOfDigits_natChars]

theorem parseStrBody_escBody : ∀ (s : List Char) (rest : List Char),
    parseStrBody (escBody s ++ rest) = some (s, rest) := by
  intro s
  induction s with
  | nil =>
    intro rest
    show parseStrBody ('"' :: rest) = some ([], rest)
    rw [parseStrBody, if_pos rfl]
  | cons c s ih =>
    intro rest
    show parseStrBody (escapeChar c ++ escBody s ++ rest) = some (c :: s, rest)
    unfold escapeChar
    split_ifs with h1 h2 h3 h4 h5 h6 h7 h8
    · subst h1
      show parseStrBody ('\\' :: '"' :: (escBody s ++ rest)) = _
      rw [parseStrBody, if_neg (by decide), if_pos rfl, parseStrEsc, if_neg (by decide)]
      show optCons '"' (parseStrBody (escBody s ++ rest)) = _
      rw [ih rest]
      rfl
    · subst h2
      show parseStrBody ('\\' :: '\\' :: (escBody s ++ rest)) = _
      rw [parseStrBody, if_neg (by decide), if_pos rfl, parseStrEsc, if_neg (by decide)]
      show optCons '\\' (parseStrBody (escBody s ++ rest)) = _
      rw [ih rest]
      rfl
    · subst h3
      show parseStrBody ('\\' :: 'b' :: (escBody s ++ rest)) = _
      rw [parseStrBody, if_neg (by decide), if_pos rfl, parseStrEsc, if_neg (by decide)]
      show optCons '\x08' (parseStrBody (escBody s ++ rest)) = _
      rw [ih rest]
      rfl
    · subst h4
      show parseStrBody ('\\' :: 't' :: (escBody s ++ rest)) = _
      rw [parseStrBody, if_neg (by decide), if_pos rfl, parseStrEsc, if_neg (by decide)]
      show optCons '\t' (parseStrBody (escBody s ++ rest)) = _
      rw [ih rest]
      rfl
    · subst h5
      show parseStrBody ('\\' :: 'n' :: (escBody s ++ rest)) = _
      rw [parseStrBody, if_neg (by decide), if_pos rfl, parseStrEsc, if_neg (by decide)]
      show optCons '\n' (parseStrBody (escBody s ++ rest)) = _
      rw [ih rest]
      rfl
    · subst h6
      show parseStrBody ('\\' :: 'f' :: (escBody s ++ rest)) = _
      rw [parseStrBody, if_neg (by decide), if_pos rfl, parseStrEsc, if_neg (by decide)]
      show optCons '\x0c' (parseStrBody (escBody s ++ rest)) = _
      rw [ih rest]
      rfl
    · subst h7
      show parseStrBody ('\\' :: 'r' :: (escBody s ++ rest)) = _
      rw [parseStrBody, if_neg (by decide), if_pos rfl, parseStrEsc, if_neg (by decide)]
      show optCons '\x0d' (parseStrBody (escBody s ++ rest)) = _
      rw [ih rest]
      rfl
    · show parseStrBody
        ('\\' :: 'u' :: '0' :: '0' :: hexDigitChar (c.toNat / 16)
          :: hexDigitChar (c.toNat % 16) :: (escBody s ++ rest)) = some (c :: s, rest)
      rw [parseStrBody, if_neg (by decide), if_pos rfl, parseStrEsc, if_pos rfl, parseStrHex]
      unfold hex4
      have hv0 : hexVal '0' = some 0 := by decide
      rw [hv0, hexVal_hexDigitChar (c.toNat / 16) (by omega),
        hexVal_hexDigitChar (c.toNat % 16) (by omega)]
      dsimp only
      have hval : ((0 * 16 + 0) * 16 + c.toNat / 16) * 16 + c.toNat % 16 = c.toNat := by
        omega
      rw [hval, if_neg (by omega), ih rest, Char.ofNat_toNat]
      rfl
    · show parseStrBody (c :: (escBody s ++ rest)) = some (c :: s, rest)
      rw [parseStrBody, if_neg h1, if_neg h2, if_neg h8, ih rest]
      rfl

theorem expectLit_self : ∀ (ls rest : List Char), expectLit ls (ls ++ rest) = some rest := by
  intro ls
  induction ls with
  | nil => intro rest; rfl
  | cons l ls ih =>
    intro rest
    show expectLit (l :: ls) (l :: (ls ++ rest)) = some rest
    rw [expectLit, if_pos rfl, ih]

theorem decDigitChar_facts : ∀ d, d < 10 →
    jsonWs (decDigitChar d) = false ∧ decDigitChar d ≠ 'n' ∧ decDigitChar d ≠ 't' ∧
    decDigitChar d ≠ 'f' ∧ decDigitChar d ≠ '"' ∧ decDigitChar d ≠ '[' ∧
    decDigitChar d ≠ '\x7b' ∧ decDigitChar d ≠ '-' ∧ decDigitChar d ≠ ']' ∧
    decDigitChar d ≠ '\x7d' := by decide

/-- The first character of a stringified value: never whitespace, never a
closing delimiter, never a comma. -/
theorem stringify_head (j : Json) :
    ∃ c tl, stringifyVal j = c :: tl ∧ jsonWs c = false ∧ c ≠ ']' ∧ c ≠ '\x7d' := by
  have hfix : ∀ c : Char, c ∈ ['n', 't', 'f', '-', '"', '[', '\x7b'] →
      jsonWs c = false ∧ c ≠ ']' ∧ c ≠ '\x7d' := by decide
  cases j with
  | num n =>
    by_cases h : n < 0
    · refine ⟨'-', _, by rw [stringifyVal, intChars, if_pos h], hfix '-' (by decide)⟩
    · obtain ⟨d, tl, hd, he⟩ := natChars_head n.toNat
      obtain ⟨hws, -, -, -, -, -, -, -, hne1, hne2⟩ := decDigitChar_facts d hd
      exact ⟨decDigitChar d, tl, by rw [stringifyVal, intChars, if_neg h, he], hws, hne1, hne2⟩
  | bool b =>
    cases b with
    | true => refine ⟨'t', _, rfl, hfix 't' (by decide)⟩
    | false => refine ⟨'f', _, rfl, hfix 'f' (by decide)⟩
  | null => refine ⟨'n', _, rfl, hfix 'n' (by decide)⟩
  | str s => refine ⟨'"', _, rfl, hfix '"' (by decide)⟩
  | arr es => refine ⟨'[', _, rfl, hfix '[' (by decide)⟩
  | obj fs => refine ⟨'\x7b', _, rfl, hfix '\x7b' (by decide)⟩

theorem string_mk_toList (s : String) : String.mk s.toList = s := by
  cases s
  rfl

theorem fuelV_pos (j : Json) : 1 ≤ fuelV j := by
  cases j <;> simp [fuelV]

theorem fuelA_pos (es : List Json) : 1 ≤ fuelA es := by
  cases es <;> simp [fuelA]

theorem fuelE_pos (es : List Json) (h : es ≠ []) : 1 ≤ fuelE es := by
  cases es with
  | nil => exact absurd rfl h
  | cons x t => rw [fuelE]; omega

theorem fuelO_pos (fs : List (String × Json)) : 1 ≤ fuelO fs := by
  cases fs <;> simp [fuelO]

theorem fuelM_pos (fs : List (String × Json)) (h : fs ≠ []) : 1 ≤ fuelM fs := by
  cases fs with
  | nil => exact absurd rfl h
  | cons f t => obtain ⟨k, v⟩ := f; rw [fuelM]; omega

theorem noDigitHead_cons {c : Char} (h : c.isDigit = false) (cs : List Char) :
    noDigitHead (c :: cs) := h

theorem parseRT : ∀ fuel : Nat,
    (∀ j rest, noDigitHead rest → fuelV j ≤ fuel →
      parseVal fuel (stringifyVal j ++ rest) = some (j, rest)) ∧
    (∀ es rest, fuelA es ≤ fuel →
      parseArr fuel (stringifyArr es ++ rest) = some (.arr es, rest)) ∧
    (∀ es rest, es ≠ [] → fuelE es ≤ fuel →
      parseElems fuel (stringifyArr es ++ rest) = some (es, rest)) ∧
    (∀ fs rest, fuelO fs ≤ fuel →
      parseObj fuel (stringifyObj fs ++ rest) = some (.obj fs, rest)) ∧
    (∀ fs rest, fs ≠ [] → fuelM fs ≤ fuel →
      parseMembers fuel (stringifyObj fs ++ rest) = some (fs, rest)) := by
  intro fuel
  induction fuel using Nat.strong_induction_on with
  | _ fuel ih =>
    cases fuel with
    | zero =>
      refine ⟨fun j _ _ hf => ?_, fun es _ hf => ?_, fun es _ hne hf => ?_,
        fun fs _ hf => ?_, fun fs _ hne hf => ?_⟩
      · exact absurd hf (by have := fuelV_pos j; omega)
      · exact absurd hf (by have := fuelA_pos es; omega)
      · exact absurd hf (by have := fuelE_pos es hne; omega)
      · exact absurd hf (by have := fuelO_pos fs; omega)
      · exact absurd hf (by have := fuelM_pos fs hne; omega)
    | succ fuel =>
      obtain ⟨ihV, ihA, ihE, ihO, ihM⟩ := ih fuel (by omega)
      refine ⟨?_, ?_, ?_, ?_, ?_⟩
      · -- parseVal
        intro j rest hrest hfuel
        cases j with
        | null =>
          show parseVal (fuel + 1) ('n' :: (['u', 'l', 'l'] ++ rest)) = some (.null, rest)
          rw [parseVal, skipWs_cons_of _ (by decide)]
          dsimp only
          rw [if_pos rfl, expectLit_self]
        | bool b =>
          cases b with
          | true =>
            show parseVal (fuel + 1) ('t' :: (['r', 'u', 'e'] ++ rest)) =
              some (.bool true, rest)
            rw [parseVal, skipWs_cons_of _ (by decide)]
            dsimp only
            rw [if_neg (by decide), if_pos rfl, expectLit_self]
          | false =>
            show parseVal (fuel + 1) ('f' :: (['a', 'l', 's', 'e'] ++ rest)) =
              some (.bool false, rest)
            rw [parseVal, skipWs_cons_of _ (by decide)]
            dsimp only
            rw [if_neg (by decide), if_neg (by decide), if_pos rfl, expectLit_self]
        | num n =>
          by_cases hneg : n < 0
          · have hs : stringifyVal (.num n) = '-' :: natChars n.natAbs := by
              rw [stringifyVal, intChars, if_pos hneg]
            rw [hs]
            show parseVal (fuel + 1) ('-' :: (natChars n.natAbs ++ rest)) = some (.num n, rest)
            rw [parseVal, skipWs_cons_of _ (by decide)]
            dsimp only
            rw [if_neg (by decide), if_neg (by decide), if_neg (by decide),
              if_neg (by decide), if_neg (by decide), if_neg (by decide), if_pos rfl,
              parseNatNum_natChars _ _ hrest]
            dsimp only
            have hcast : -(n.natAbs : ℤ) = n := by omega
            rw [hcast]
          · have hs : stringifyVal (.num n) = natChars n.toNat := by
              rw [stringifyVal, intChars, if_neg hneg]
            obtain ⟨d, tl, hd, he⟩ := natChars_head n.toNat
            obtain ⟨hws, hn1, hn2, hn3, hn4, hn5, hn6, hn7, -, -⟩ := decDigitChar_facts d hd
            rw [hs, he]
            show parseVal (fuel + 1) (decDigitChar d :: (tl ++ rest)) = some (.num n, rest)
            rw [parseVal, skipWs_cons_of _ hws]
            dsimp only
            rw [if_neg hn1, if_neg hn2, if_neg hn3, if_neg hn4, if_neg hn5, if_neg hn6,
              if_neg hn7, if_pos (decDigitChar_isDigit d hd),
              show decDigitChar d :: (tl ++ rest) = natChars n.toNat ++ rest from by
                rw [he]; rfl,
              parseNatNum_natChars _ _ hrest]
            dsimp only
            have hcast : ((n.toNat : ℤ)) = n := by omega
            rw [hcast]
        | str s =>
          show parseVal (fuel + 1) ('"' :: (escBody s.toList ++ rest)) = some (.str s, rest)
          rw [parseVal, skipWs_cons_of _ (by decide)]
          dsimp only
          rw [if_neg (by decide), if_neg (by decide), if_neg (by decide), if_pos rfl,
            parseStrBody_escBody]
          dsimp only
          rw [string_mk_toList]
        | arr es =>
          show parseVal (fuel + 1) ('[' :: (stringifyArr es ++ rest)) = some (.arr es, rest)
          rw [parseVal, skipWs_cons_of _ (by decide)]
          dsimp only
          rw [if_neg (by decide), if_neg (by decide), if_neg (by decide), if_neg (by decide),
            if_pos rfl]
          exact ihA es rest (by rw [fuelV] at hfuel; omega)
        | obj fs =>
          show parseVal (fuel + 1) ('\x7b' :: (stringifyObj fs ++ rest)) = some (.obj fs, rest)
          rw [parseVal, skipWs_cons_of _ (by decide)]
          dsimp only
          rw [if_neg (by decide), if_neg (by decide), if_neg (by decide), if_neg (by decide),
            if_neg (by decide), if_pos rfl]
          exact ihO fs rest (by rw [fuelV] at hfuel; omega)
      · -- parseArr
        intro es rest hfuel
        cases es with
        | nil =>
          show parseArr (fuel + 1) (']' :: rest) = some (.arr [], rest)
          rw [parseArr, skipWs_cons_of _ (by decide)]
          dsimp only
          rw [if_pos rfl]
        | cons x t =>
          obtain ⟨c, tl, hjc, hws, hne1, -⟩ := stringify_head x
          have hQ : ∃ Q, stringifyArr (x :: t) = stringifyVal x ++ Q := by
            cases t with
            | nil => exact ⟨[']'], by rw [stringifyArr]⟩
            | cons y t2 => exact ⟨',' :: stringifyArr (y :: t2), by rw [stringifyArr]⟩
          obtain ⟨Q, hQ⟩ := hQ
          have harg : stringifyArr (x :: t) ++ rest = c :: (tl ++ (Q ++ rest)) := by
            rw [hQ, hjc]
            simp
          rw [harg, parseArr, skipWs_cons_of _ hws]
          dsimp only
          rw [if_neg hne1,
            show c :: (tl ++ (Q ++ rest)) = stringifyArr (x :: t) ++ rest from harg.symm,
            ihE (x :: t) rest (by simp) (by rw [fuelA] at hfuel; omega)]
      · -- parseElems
        intro es rest hne hfuel
        cases es with
        | nil => exact absurd rfl hne
        | cons x t =>
          rw [fuelE] at hfuel
          cases t with
          | nil =>
            rw [fuelS] at hfuel
            obtain ⟨f, rfl⟩ : ∃ f, fuel = f + 1 := ⟨fuel - 1, by omega⟩
            show parseElems (f + 1 + 1) ((stringifyVal x ++ [']']) ++ rest) = some ([x], rest)
            rw [List.append_assoc, List.singleton_append, parseElems,
              ihV x (']' :: rest) (noDigitHead_cons (by decide) rest) (by omega)]
            dsimp only
            rw [skipWs_cons_of _ (by decide), parseElemsSep, if_neg (by decide), if_pos rfl]
          | cons y t2 =>
            rw [fuelS] at hfuel
            obtain ⟨f, rfl⟩ : ∃ f, fuel = f + 1 := ⟨fuel - 1, by omega⟩
            show parseElems (f + 1 + 1)
              ((stringifyVal x ++ ',' :: stringifyArr (y :: t2)) ++ rest) =
              some (x :: y :: t2, rest)
            rw [List.append_assoc, List.cons_append, parseElems,
              ihV x (',' :: (stringifyArr (y :: t2) ++ rest))
                (noDigitHead_cons (by decide) _) (by omega)]
            dsimp only
            rw [skipWs_cons_of _ (by decide), parseElemsSep, if_pos rfl,
              (ih f (by omega)).2.2.1 (y :: t2) rest (by simp) (by omega)]
      · -- parseObj
        intro fs rest hfuel
        cases fs with
        | nil =>
          show parseObj (fuel + 1) ('\x7d' :: rest) = some (.obj [], rest)
          rw [parseObj, skipWs_cons_of _ (by decide)]
          dsimp only
          rw [if_pos rfl]
        | cons f t =>
          obtain ⟨k, v⟩ := f
          have hQ : ∃ Q, stringifyObj ((k, v) :: t) = '"' :: Q := by
            cases t with
            | nil => exact ⟨escBody k.toList ++ ':' :: stringifyVal v ++ ['\x7d'], by
                rw [stringifyObj]; rfl⟩
            | cons g t2 => exact
                ⟨escBody k.toList ++ ':' :: stringifyVal v ++ ',' :: stringifyObj (g :: t2), by
                  rw [stringifyObj]; rfl⟩
          obtain ⟨Q, hQ⟩ := hQ
          rw [hQ]
          show parseObj (fuel + 1) ('"' :: (Q ++ rest)) = some (.obj ((k, v) :: t), rest)
          rw [parseObj, skipWs_cons_of _ (by decide)]
          dsimp only
          rw [if_neg (by decide),
            show '"' :: (Q ++ rest) = stringifyObj ((k, v) :: t) ++ rest from by
              rw [hQ]; rfl,
            ihM ((k, v) :: t) rest (by simp) (by rw [fuelO] at hfuel; omega)]
      · -- parseMembers
        intro fs rest hne hfuel
        cases fs with
        | nil => exact absurd rfl hne
        | cons f t =>
          obtain ⟨k, v⟩ := f
          rw [fuelM] at hfuel
          cases t with
          | nil =>
            rw [fuelP] at hfuel
            obtain ⟨f, rfl⟩ : ∃ f, fuel = f + 1 := ⟨fuel - 1, by omega⟩
            obtain ⟨g, rfl⟩ : ∃ g, f = g + 1 := ⟨f - 1, by omega⟩
            show parseMembers (g + 1 + 1 + 1)
              ((quoteChars k.toList ++ ':' :: stringifyVal v ++ ['\x7d']) ++ rest) =
              some ([(k, v)], rest)
            rw [show (quoteChars k.toList ++ ':' :: stringifyVal v ++ ['\x7d']) ++ rest =
              '"' :: (escBody k.toList ++
                (':' :: (stringifyVal v ++ ('\x7d' :: rest)))) from by
                rw [quoteChars]; simp]
            rw [parseMembers, skipWs_cons_of _ (by decide)]
            dsimp only
            rw [if_pos rfl, parseStrBody_escBody]
            dsimp only
            rw [skipWs_cons_of _ (by decide), string_mk_toList, parseMemColon, if_pos rfl,
              (ih (g + 1) (by omega)).1 v ('\x7d' :: rest)
                (noDigitHead_cons (by decide) rest) (by omega)]
            dsimp only
            rw [skipWs_cons_of _ (by decide), parseMemSep, if_neg (by decide), if_pos rfl]
          | cons g0 t2 =>
            rw [fuelP] at hfuel
            obtain ⟨f, rfl⟩ : ∃ f, fuel = f + 1 := ⟨fuel - 1, by omega⟩
            obtain ⟨g, rfl⟩ : ∃ g, f = g + 1 := ⟨f - 1, by omega⟩
            show parseMembers (g + 1 + 1 + 1)
              ((quoteChars k.toList ++ ':' :: stringifyVal v ++
                ',' :: stringifyObj (g0 :: t2)) ++ rest) =
              some ((k, v) :: g0 :: t2, rest)
            rw [show (quoteChars k.toList ++ ':' :: stringifyVal v ++
                ',' :: stringifyObj (g0 :: t2)) ++ rest =
              '"' :: (escBody k.toList ++
                (':' :: (stringifyVal v ++
                  (',' :: (stringifyObj (g0 :: t2) ++ rest))))) from by
                rw [quoteChars]; simp]
            rw [parseMembers, skipWs_cons_of _ (by decide)]
            dsimp only
            rw [if_pos rfl, parseStrBody_escBody]
            dsimp only
            rw [skipWs_cons_of _ (by decide), string_mk_toList, parseMemColon, if_pos rfl,
              (ih (g + 1) (by omega)).1 v (',' :: (stringifyObj (g0 :: t2) ++ rest))
                (noDigitHead_cons (by decide) _) (by omega)]
            dsimp only
            rw [skipWs_cons_of _ (by decide), parseMemSep, if_pos rfl,
              (ih g (by omega)).2.2.2.2 (g0 :: t2) rest (by simp) (by omega)]

theorem fuelS_pos (es : List Json) : 1 ≤ fuelS es := by
  cases es <;> rw [fuelS] <;> omega

theorem fuelP_pos (fs : List (String × Json)) : 1 ≤ fuelP fs := by
  cases fs <;> rw [fuelP] <;> omega

theorem fuelBound : ∀ N : Nat,
    (∀ j, fuelV j ≤ N → fuelV j ≤ 3 * (stringifyVal j).length) ∧
    (∀ es, fuelA es ≤ N → fuelA es ≤ 3 * (stringifyArr es).length) ∧
    (∀ es, fuelE es ≤ N → fuelE es + 1 ≤ 3 * (stringifyArr es).length) ∧
    (∀ fs, fuelO fs ≤ N → fuelO fs ≤ 3 * (stringifyObj fs).length) ∧
    (∀ fs, fuelM fs ≤ N → fuelM fs + 1 ≤ 3 * (stringifyObj fs).length) := by
  intro N
  induction N using Nat.strong_induction_on with
  | _ N ih =>
    refine ⟨?_, ?_, ?_, ?_, ?_⟩
    · -- values
      intro j h
      cases j with
      | null => rw [fuelV, stringifyVal]; decide
      | bool b => cases b <;> (rw [fuelV, stringifyVal]; decide)
      | num n =>
        obtain ⟨c, tl, hc, -, -, -⟩ := stringify_head (.num n)
        rw [fuelV, hc, List.length_cons]
        omega
      | str s =>
        obtain ⟨c, tl, hc, -, -, -⟩ := stringify_head (.str s)
        rw [fuelV, hc, List.length_cons]
        omega
      | arr es =>
        rw [fuelV] at h
        have hp := fuelA_pos es
        have hBA := (ih (N - 1) (by omega)).2.1 es (by omega)
        rw [fuelV, show stringifyVal (.arr es) = '[' :: stringifyArr es from by
          rw [stringifyVal], List.length_cons]
        omega
      | obj fs =>
        rw [fuelV] at h
        have hp := fuelO_pos fs
        have hBO := (ih (N - 1) (by omega)).2.2.2.1 fs (by omega)
        rw [fuelV, show stringifyVal (.obj fs) = '\x7b' :: stringifyObj fs from by
          rw [stringifyVal], List.length_cons]
        omega
    · -- parseArr fuel
      intro es h
      cases es with
      | nil => rw [fuelA, stringifyArr]; decide
      | cons x t =>
        rw [fuelA] at h
        have hp := fuelE_pos (x :: t) (by simp)
        have hBE := (ih (N - 1) (by omega)).2.2.1 (x :: t) (by omega)
        rw [fuelA]
        omega
    · -- parseElems fuel
      intro es h
      cases es with
      | nil => rw [fuelE, stringifyArr]; decide
      | cons x t =>
        rw [fuelE] at h
        have hpv := fuelV_pos x
        have hBV := (ih (N - 1) (by have := fuelS_pos t; omega)).1 x
          (by have := fuelS_pos t; omega)
        cases t with
        | nil =>
          rw [fuelE, fuelS, show stringifyArr [x] = stringifyVal x ++ [']'] from by
            rw [stringifyArr], List.length_append]
          simp only [List.length_cons, List.length_nil]
          omega
        | cons y t2 =>
          rw [fuelS] at h
          have hBE2 := (ih (N - 1) (by omega)).2.2.1 (y :: t2) (by omega)
          rw [fuelE, fuelS,
            show stringifyArr (x :: y :: t2) = stringifyVal x ++ ',' :: stringifyArr (y :: t2)
              from by rw [stringifyArr], List.length_append, List.length_cons]
          omega
    · -- parseObj fuel
      intro fs h
      cases fs with
      | nil => rw [fuelO, stringifyObj]; decide
      | cons f t =>
        rw [fuelO] at h
        have hp := fuelM_pos (f :: t) (by simp)
        have hBM := (ih (N - 1) (by omega)).2.2.2.2 (f :: t) (by omega)
        rw [fuelO]
        omega
    · -- parseMembers fuel
      intro fs h
      cases fs with
      | nil => rw [fuelM, stringifyObj]; decide
      | cons f t =>
        obtain ⟨k, v⟩ := f
        rw [fuelM] at h
        have hpv := fuelV_pos v
        have hBV := (ih (N - 1) (by have := fuelP_pos t; omega)).1 v
          (by have := fuelP_pos t; omega)
        cases t with
        | nil =>
          rw [fuelM, fuelP,
            show stringifyObj [(k, v)] = quoteChars k.toList ++ ':' :: stringifyVal v ++ ['\x7d']
              from by rw [stringifyObj]]
          simp only [quoteChars, List.length_append, List.length_cons, List.length_nil]
          omega
        | cons g t2 =>
          rw [fuelP] at h
          have hBM2 := (ih (N - 1) (by omega)).2.2.2.2 (g :: t2) (by omega)
          rw [fuelM, fuelP,
            show stringifyObj ((k, v) :: g :: t2) =
              quoteChars k.toList ++ ':' :: stringifyVal v ++ ',' :: stringifyObj (g :: t2)
              from by rw [stringifyObj]]
          simp only [quoteChars, List.length_append, List.length_cons]
          omega

theorem fuelV_le (j : Json) : fuelV j ≤ 3 * (stringifyVal j).length :=
  (fuelBound (fuelV j)).1 j le_rfl

theorem jsonParse_stringify (j : Json) :
    jsonParse (String.mk (stringifyVal j)) = some j := by
  have hV := (parseRT (3 * (stringifyVal j).length + 3)).1 j [] trivial
    (by have := fuelV_le j; omega)
  rw [List.append_nil] at hV
  rw [jsonParse,
    show (String.mk (stringifyVal j)).length = (stringifyVal j).length from rfl,
    show (String.mk (stringifyVal j)).toList = stringifyVal j from rfl, hV]
  rfl

theorem utf8EncodeChar_lt (c : Char) : ∀ b ∈ utf8EncodeChar c, b < 256 := by
  obtain ⟨hlt, -⟩ := char_toNat_facts c
  intro b hb
  unfold utf8EncodeChar at hb
  dsimp only at hb
  split_ifs at hb with h1 h2 h3
  · simp at hb
    omega
  · simp at hb
    rcases hb with rfl | rfl <;> omega
  · simp at hb
    rcases hb with rfl | rfl | rfl <;> omega
  · simp at hb
    rcases hb with rfl | rfl | rfl | rfl <;> omega

theorem utf8Encode_lt (cs : List Char) : ∀ b ∈ utf8Encode cs, b < 256 := by
  induction cs with
  | nil => intro b hb; simp [utf8Encode] at hb
  | cons c t ih =>
    intro b hb
    rw [utf8Encode] at hb
    rcases List.mem_append.mp hb with h | h
    · exact utf8EncodeChar_lt c b h
    · exact ih b h

/-- C9: for every JSON-serializable payload (a JSON value whose objects,
as images of JS objects, have pairwise distinct keys), decoding the
encoded x402 header is the identity: `parseX402Header (createX402Header j)`
returns `j`. -/
theorem claim_C9 (j : Json) (h : jsonWFb j = true) :
    parseX402Header (createX402Header j) = .ok j := by
  rw [createX402Header, parseX402Header,
    show (String.mk (b64EncodeChunks (utf8Encode (stringifyVal j)))).toList =
      b64EncodeChunks (utf8Encode (stringifyVal j)) from rfl,
    b64_roundtrip _ (utf8Encode_lt (stringifyVal j))]
  dsimp only
  rw [utf8_roundtrip]
  dsimp only
  rw [jsonParse_stringify]

theorem claim_C9_witness :
    jsonWFb proofPayload = true ∧
    parseX402Header (createX402Header proofPayload) = .ok proofPayload :=
  ⟨by decide, claim_C9 proofPayload (by decide)⟩
